import Mathlib

/-!
Verification development for the JSON-Schema front end of a schema-driven
code generator (source: `src/JSONSchemaInput.ts`).

The development shallowly embeds the reference model (`Ref`, `PathElement`),
the reference resolver (`Ref.lookupRef`) and the recursive schema-to-type-graph
conversion engine (`addTypesInSchema` with its inner functions `toType`,
`convertToType`, `fromTypeName`, `makeClass`, `makeMap`, ...).

Modelling conventions:
  - JSON documents are the inductive `JSON`; a TypeScript `StringMap` is an
    association list `List (String × JSON)` (JS objects iterate in insertion
    order, which the list order represents).
  - The external type-graph builder is modelled by `ConvState`: every builder
    call allocates a fresh numeric handle (`TypeRef`) and records a descriptor
    of the request; `setSetOperationMembers` calls are logged.
  - TypeScript exceptions (`panic`, failed `assert`) are `Except.error` with an
    `Err.fatal` message; the whole conversion run aborts on the first error.
  - The engine's recursion is not structurally decreasing (cycles are broken
    through the memo table), so the embedding is fuel-indexed: `eng root fuel`
    is a record of all mutually recursive engine functions, where every call
    edge consumes one unit of fuel.  Running out of fuel is the separate error
    `Err.outOfFuel`, never confused with a source-level failure.
  - Type-attribute / name-hint plumbing (`TypeAttributes`, `makeAttributes`,
    `pluralize.singular`) is metadata that travels alongside the structural
    conversion, never influencing control flow or the produced structure; it is
    omitted from the embedding.
-/

/-- A parsed JSON value. -/
inductive JSON where
  | null : JSON
  | bool (b : Bool) : JSON
  | num (n : Int) : JSON
  | str (s : String) : JSON
  | arr (elems : List JSON) : JSON
  | obj (fields : List (String × JSON)) : JSON

/-- A JS object with string keys (`StringMap` in the source). -/
abbrev StringMap := List (String × JSON)

/-- First-match association-list lookup (JS property access on an object). -/
def lookupAssoc {α β : Type} [DecidableEq α] : List (α × β) → α → Option β
  | [], _ => none
  | (k, v) :: rest, key => if k = key then some v else lookupAssoc rest key

/-- Field access `m[k]` on a JS object; `none` models `undefined`. -/
def lookupField (m : StringMap) (k : String) : Option JSON :=
  lookupAssoc m k

/-- Whether a JSON value is exactly `null` (JS strict equality to `null`). -/
def jsonIsNull : JSON → Bool
  | .null => true
  | _ => false

/-- Whether a JSON value is a string (JS `typeof c === "string"`). -/
def JSON.isStr : JSON → Bool
  | .str _ => true
  | _ => false

/-- JS truthiness of a value (used by `if (schema.oneOf)`). -/
def jsTruthy : JSON → Bool
  | .null => false
  | .bool b => b
  | .num n => n != 0
  | .str s => !s.isEmpty
  | .arr _ => true
  | .obj _ => true

/-- JS `typeof x === "object"`: true for objects, arrays and `null`. -/
def jsTypeofObject : JSON → Bool
  | .obj _ => true
  | .arr _ => true
  | .null => true
  | _ => false

/-- Decimal rendering of an integer, as JS template interpolation prints it. -/
def intDisplay (n : Int) : String :=
  if n < 0 then "-" ++ Nat.repr n.natAbs else Nat.repr n.natAbs

/-- JS template-literal stringification of a primitive value. -/
def jsDisplayAtom : JSON → String
  | .null => "null"
  | .bool true => "true"
  | .bool false => "false"
  | .num n => intDisplay n
  | .str s => s
  | .arr _ => ""
  | .obj _ => "[object Object]"

/-- JS template-literal stringification as used in the source's error
messages (`panic` interpolations).  Arrays join their elements with commas,
with `null` entries printed empty; nested arrays are approximated by the
primitive case, which no error path of the claims exercises. -/
def jsDisplay : JSON → String
  | .arr elems =>
      String.intercalate ","
        (elems.map fun e => match e with | .null => "" | x => jsDisplayAtom x)
  | j => jsDisplayAtom j

/-- Split a character list on `'/'`, embedding JS `String.prototype.split("/")`
(`"".split("/") = [""]`, empty segments preserved). -/
def splitOnSlash : List Char → List (List Char)
  | [] => [[]]
  | c :: cs =>
    if c = '/' then [] :: splitOnSlash cs
    else
      match splitOnSlash cs with
      | [] => [[c]]
      | s :: rest => (c :: s) :: rest

/-- Join character lists with `'/'`, embedding JS `Array.prototype.join("/")`. -/
def joinSlash : List (List Char) → List Char
  | [] => []
  | [s] => s
  | s :: rest => s ++ '/' :: joinSlash rest

/-- JS `str.split("/")` on Lean strings. -/
def jsSplitSlash (s : String) : List String :=
  (splitOnSlash s.data).map (fun l => String.mk l)

/-- JS `segs.join("/")` on Lean strings. -/
def jsJoinSlash (segs : List String) : String :=
  String.mk (joinSlash (segs.map String.data))

/-- Longest leading run of decimal digits of a character list. -/
def digitsPrefix : List Char → List Char
  | [] => []
  | c :: cs => if c.isDigit then c :: digitsPrefix cs else []

/-- Numeric value of a list of decimal digits. -/
def digitsToNat (ds : List Char) : Nat :=
  ds.foldl (fun n c => n * 10 + (c.toNat - 48)) 0

/-- JS `parseInt(s, 10)` restricted to the outcomes the resolver can observe:
`some n` when the string starts with decimal digits, `none` for `NaN` (and for
values that can never index into an array, which behave like `NaN` there). -/
def jsParseInt (s : String) : Option Nat :=
  match digitsPrefix s.data with
  | [] => none
  | ds => some (digitsToNat ds)

/-- Outcome of an aborted run: `fatal` is a thrown TypeScript error (`panic`
or a failed `assert`), `outOfFuel` is the embedding-only artifact of the fuel
index and never corresponds to a source behaviour. -/
inductive Err where
  | fatal (msg : String) : Err
  | outOfFuel : Err
deriving DecidableEq, Repr

/-- The three combinator tags (`PathElementKind.OneOf/AnyOf/AllOf`). -/
inductive CombKind where
  | oneOf : CombKind
  | anyOf : CombKind
  | allOf : CombKind
deriving DecidableEq, Repr

/-- A path element of a schema reference (`PathElement` in the source).
`keyObj kind index` is the element produced by `makeTypesFromCases`, which
pushes the raw record with a combinator kind and an index through `push` via an
`as any` cast: it is a `KeyOrIndex` element whose key is that object rather
than a string. -/
inductive PathElement where
  | root : PathElement
  | definition (name : String) : PathElement
  | type (index : Nat) : PathElement
  | object : PathElement
  | keyOrIndex (key : String) : PathElement
  | keyObj (kind : CombKind) (index : Nat) : PathElement
deriving DecidableEq, Repr

/-- An immutable reference into a schema document: a source address plus an
ordered path of elements (`class Ref`). -/
structure Ref where
  address : String
  path : List PathElement
deriving DecidableEq, Repr

/-- `Ref.root`: the reference to a document's root. -/
def Ref.root (source : String) : Ref :=
  ⟨source, [PathElement.root]⟩

/-- The element loop of `Ref.parse`: segment `"#"` becomes `Root`; segment
`"definitions"` followed by another segment becomes a single `Definition`
element consuming both; every other segment (including a trailing
`"definitions"`) becomes `KeyOrIndex`. -/
def parseElements : List String → List PathElement
  | [] => []
  | p :: rest =>
    if p = "#" then PathElement.root :: parseElements rest
    else if p = "definitions" then
      match rest with
      | [] => [PathElement.keyOrIndex p]
      | name :: rest2 => PathElement.definition name :: parseElements rest2
    else PathElement.keyOrIndex p :: parseElements rest

/-- `Ref.parse`: fails unless the `$ref` value is a string, then splits on
`"/"` and maps the segments through the element loop. -/
def Ref.parse (baseAddress : String) (ref : JSON) : Except Err Ref :=
  match ref with
  | .str s => .ok ⟨baseAddress, parseElements (jsSplitSlash s)⟩
  | _ => .error (.fatal "$ref must be a string")

/-- Append a single element, producing a new reference (`pushElement`). -/
def Ref.pushElement (r : Ref) (pe : PathElement) : Ref :=
  ⟨r.address, r.path ++ [pe]⟩

/-- `Ref.push(...keys)`: append one `KeyOrIndex` element per key. -/
def Ref.push (r : Ref) (keys : List String) : Ref :=
  keys.foldl (fun acc k => acc.pushElement (PathElement.keyOrIndex k)) r

/-- `Ref.pushDefinition`. -/
def Ref.pushDefinition (r : Ref) (name : String) : Ref :=
  r.pushElement (PathElement.definition name)

/-- `Ref.pushObject`. -/
def Ref.pushObject (r : Ref) : Ref :=
  r.pushElement PathElement.object

/-- `Ref.pushType`. -/
def Ref.pushType (r : Ref) (index : Nat) : Ref :=
  r.pushElement (PathElement.type index)

/-- The element pushed by `makeTypesFromCases` via the `as any` cast. -/
def Ref.pushCombinator (r : Ref) (kind : CombKind) (index : Nat) : Ref :=
  r.pushElement (PathElement.keyObj kind index)

/-- Whether a key matches the source's `numberRegexp` (`^[0-9]+$`). -/
def numberString (k : String) : Bool :=
  !k.data.isEmpty && k.data.all Char.isDigit

/-- The backward scan of the `Ref.name` getter, over the reversed path. -/
def refNameAux : List PathElement → Except Err String
  | [] => .ok "Something"
  | e :: rest =>
    match e with
    | .root => .ok "Root"
    | .definition n => .ok n
    | .keyOrIndex k => if numberString k then .ok k else refNameAux rest
    | .type _ => .error (.fatal "We shouldn't try to get the name of Type or Object refs")
    | .object => .error (.fatal "We shouldn't try to get the name of Type or Object refs")
    | .keyObj _ _ => .error (.fatal "TypeError: e.key.match is not a function")

/-- The `name` getter: scan the path from its end backward. -/
def Ref.name (r : Ref) : Except Err String :=
  refNameAux r.path.reverse

/-- The `definitionName` getter. -/
def Ref.definitionName (r : Ref) : Option String :=
  match r.path.getLast? with
  | some (.definition n) => some n
  | _ => none

/-- `elementToString` inside `Ref.toString`.  For a `keyObj` element the JS
`join` stringifies the object key as `"[object Object]"`. -/
def elementToString : PathElement → String
  | .root => "#"
  | .definition name => "definitions/" ++ name
  | .type index => "type/" ++ Nat.repr index
  | .object => "object"
  | .keyOrIndex key => key
  | .keyObj _ _ => "[object Object]"

/-- `Ref.toString`: map the elements to strings and join with `"/"`. -/
def Ref.toString (r : Ref) : String :=
  jsJoinSlash (r.path.map elementToString)

/-- Modelled from the spec: `checkStringMap` from `Support.ts` (a collaborator
module not under `src/`): succeeds exactly on a keyed mapping, and any other
JSON shape where an object was required is a structural validation failure
that aborts the run. -/
def checkStringMapJ : JSON → Except Err StringMap
  | .obj m => .ok m
  | j => .error (.fatal ("Expected a string map, but got " ++ jsDisplay j))

/-- Modelled from the spec: `checkStringMap` applied to a possibly-`undefined`
JS value (`undefined` fails like any non-object). -/
def checkStringMapOpt : Option JSON → Except Err StringMap
  | some j => checkStringMapJ j
  | none => .error (.fatal "Expected a string map, but got undefined")

/-- The recursive walk inside `Ref.lookupRef`.  `local_` is the fragment the
walk currently points at (`none` models JS `undefined`), `localPath` the
accumulated concrete path, and the last argument the remaining target
elements.  A `Root` element restarts the walk at the root document with the
accumulated path reset to just `Root`. -/
def lookupAux (root : StringMap) (addr : String) :
    Option JSON → List PathElement → List PathElement → Except Err (StringMap × Ref)
  | local_, localPath, [] =>
      (checkStringMapOpt local_).map (fun m => (m, ⟨addr, localPath⟩))
  | local_, localPath, first :: rest =>
    match first with
    | .root => lookupAux root addr (some (.obj root)) [PathElement.root] rest
    | .definition name => do
        let m ← checkStringMapOpt local_
        let defs ← checkStringMapOpt (lookupField m "definitions")
        let d ← checkStringMapOpt (lookupField defs name)
        lookupAux root addr (some (.obj d)) (localPath ++ [PathElement.definition name]) rest
    | .keyOrIndex key =>
        match local_ with
        | some (.arr elems) =>
            lookupAux root addr ((jsParseInt key).bind (fun i => elems.get? i))
              (localPath ++ [PathElement.keyOrIndex key]) rest
        | _ => do
            let m ← checkStringMapOpt local_
            lookupAux root addr (lookupField m key)
              (localPath ++ [PathElement.keyOrIndex key]) rest
    | .type _ => .error (.fatal "Cannot look up path that indexes \"type\"")
    | .object => .error (.fatal "Cannot look up path that indexes \"object\"")
    | .keyObj kind i =>
        match local_ with
        | some (.arr _) =>
            lookupAux root addr none (localPath ++ [PathElement.keyObj kind i]) rest
        | _ => do
            let m ← checkStringMapOpt local_
            lookupAux root addr (lookupField m "[object Object]")
              (localPath ++ [PathElement.keyObj kind i]) rest

/-- `Ref.lookupRef(root, localSchema, localRef)` called on a target reference:
walk the target's elements against the local document, and return the resolved
fragment paired with the accumulated concrete reference (whose address is the
local reference's address). -/
def Ref.lookupRef (target : Ref) (root : StringMap) (localSchema : StringMap)
    (localRef : Ref) : Except Err (StringMap × Ref) :=
  lookupAux root localRef.address (some (.obj localSchema)) localRef.path target.path

/-- The element check inside `checkStringArray`: every entry must be a string,
failing at the first that is not. -/
def checkAllStrings : List JSON → Except Err (List String)
  | [] => .ok []
  | .str s :: rest => (checkAllStrings rest).map (fun l => s :: l)
  | e :: _ => .error (.fatal ("Expected string, but got " ++ jsDisplay e))

/-- `checkStringArray`: the value must be an array of strings. -/
def checkStringArray (j : JSON) : Except Err (List String) :=
  match j with
  | .arr elems => checkAllStrings elems
  | _ => .error (.fatal ("Expected a string array, but got " ++ jsDisplay j))

/-- The element loop inside `checkTypeList`'s array branch. -/
def typeListStrings : List JSON → Except Err (List String)
  | [] => .ok []
  | .str s :: rest => (typeListStrings rest).map (fun l => s :: l)
  | e :: _ => .error (.fatal ("element of type is not a string: " ++ jsDisplay e))

/-- An `OrderedSet` built from a list: de-duplicate keeping the first
occurrence of each element, preserving order. -/
def dedupAux {α : Type} [DecidableEq α] (seen : List α) : List α → List α
  | [] => []
  | x :: rest =>
    if x ∈ seen then dedupAux seen rest else x :: dedupAux (x :: seen) rest

/-- De-duplicated ordered list (`OrderedSet(arr)` of immutable.js). -/
def dedupOrdered {α : Type} [DecidableEq α] (l : List α) : List α :=
  dedupAux [] l

/-- `checkTypeList`: a single string becomes a one-element set; an array is
validated to be all-string and non-empty (the `assert` after building the
ordered set); anything else is a hard failure. -/
def checkTypeList (j : JSON) : Except Err (List String) :=
  match j with
  | .str s => .ok [s]
  | .arr elems => do
      let arr ← typeListStrings elems
      let set := dedupOrdered arr
      if set.isEmpty then .error (.fatal "JSON Schema must specify at least one type")
      else .ok set
  | _ => .error (.fatal ("type is neither a string or array of strings: " ++ jsDisplay j))

/-- An opaque node handle handed out by the type-graph builder. -/
abbrev TypeRef := Nat

/-- What the engine asked the builder for when a handle was allocated.
`uniqueUnion` and `uniqueIntersection` are the forward-declared mutable set
operations whose members are set later through `setSetOperationMembers`;
`union` is `getUnionType` with its members known at creation.  `cls` carries
the ordered properties as (name, member handle, isOptional). -/
inductive NodeDesc where
  | prim (name : String) : NodeDesc
  | enum (cases : List String) : NodeDesc
  | arrayOf (elem : TypeRef) : NodeDesc
  | mapOf (values : TypeRef) : NodeDesc
  | cls (props : List (String × TypeRef × Bool)) : NodeDesc
  | union (members : List TypeRef) : NodeDesc
  | uniqueUnion : NodeDesc
  | uniqueIntersection : NodeDesc
deriving DecidableEq, Repr

/-- The state of one conversion run: the path-to-node memo table keyed by the
path's element list (the source keys the memo on `path.immutable`, which is
exactly the element list), plus the modelled type-graph builder: a fresh-id
counter, the allocation log, the `setSetOperationMembers` log (newest first)
and the registered top-level types. -/
structure ConvState where
  typeForPath : List (List PathElement × TypeRef)
  nextId : Nat
  nodes : List (TypeRef × NodeDesc)
  setOps : List (TypeRef × List TypeRef)
  topLevels : List (String × TypeRef)
deriving DecidableEq, Repr

/-- The empty state at the start of `addTypesInSchema`. -/
def initState : ConvState :=
  ⟨[], 0, [], [], []⟩

/-- Allocate a fresh node handle recording the request descriptor. -/
def allocNode (st : ConvState) (d : NodeDesc) : TypeRef × ConvState :=
  (st.nextId,
   { st with nextId := st.nextId + 1, nodes := (st.nextId, d) :: st.nodes })

/-- `typeBuilder.setSetOperationMembers`: log the member set of a
forward-declared union/intersection node. -/
def setSetOperationMembers (st : ConvState) (t : TypeRef) (members : List TypeRef) : ConvState :=
  { st with setOps := (t, members) :: st.setOps }

/-- `typeBuilder.addTopLevel`. -/
def addTopLevel (st : ConvState) (name : String) (t : TypeRef) : ConvState :=
  { st with topLevels := st.topLevels ++ [(name, t)] }

/-- `setTypeForPath`: bind a path to a node handle in the memo table.  If the
path is already bound, the source's `assert(maybeRef === t, ...)` rejects a
different handle by failing fast; re-setting the same handle leaves the
(immutable) map unchanged. -/
def setTypeForPath (st : ConvState) (path : Ref) (t : TypeRef) : Except Err ConvState :=
  match lookupAssoc st.typeForPath path.path with
  | some t0 =>
      if t0 = t then .ok st
      else .error (.fatal "Trying to set path again to different type")
  | none => .ok { st with typeForPath := (path.path, t) :: st.typeForPath }

/-- The `required` computation at the head of `fromTypeName`'s object case:
absent means the empty array, otherwise `checkStringArray`. -/
def requiredOf (schema : StringMap) : Except Err (List String) :=
  match lookupField schema "required" with
  | none => .ok []
  | some j => checkStringArray j

/-- One fuel level of the conversion engine: the record of the mutually
recursive functions closed over `addTypesInSchema`'s state.  Every recursive
call goes through the previous level, so each call edge costs one unit of
fuel. -/
structure Eng where
  toType : ConvState → StringMap → Ref → Except Err (TypeRef × ConvState)
  convertToType : ConvState → StringMap → Ref → Except Err (TypeRef × ConvState)
  fromTypeName : ConvState → StringMap → Ref → String → Except Err (TypeRef × ConvState)
  makeClass : ConvState → Ref → StringMap → List String → Except Err (TypeRef × ConvState)
  makeClassProps : ConvState → StringMap → List String → Ref →
    Except Err (List (String × TypeRef × Bool) × ConvState)
  makeMap : ConvState → Ref → StringMap → Except Err (TypeRef × ConvState)
  makeTypesFromCases : ConvState → JSON → Ref → CombKind →
    Except Err (List TypeRef × ConvState)
  typesFromList : ConvState → List JSON → Ref → CombKind → Nat →
    Except Err (List TypeRef × ConvState)
  convertOneOrAnyOf : ConvState → JSON → Ref → CombKind → Except Err (TypeRef × ConvState)
  fromTypeNamesList : ConvState → StringMap → Ref → List String → Nat →
    Except Err (List TypeRef × ConvState)

/-- The exhausted engine: every call reports that the fuel ran out. -/
def engBot : Eng where
  toType := fun _ _ _ => .error .outOfFuel
  convertToType := fun _ _ _ => .error .outOfFuel
  fromTypeName := fun _ _ _ _ => .error .outOfFuel
  makeClass := fun _ _ _ _ => .error .outOfFuel
  makeClassProps := fun _ _ _ _ => .error .outOfFuel
  makeMap := fun _ _ _ => .error .outOfFuel
  makeTypesFromCases := fun _ _ _ _ => .error .outOfFuel
  typesFromList := fun _ _ _ _ _ => .error .outOfFuel
  convertOneOrAnyOf := fun _ _ _ _ => .error .outOfFuel
  fromTypeNamesList := fun _ _ _ _ _ => .error .outOfFuel

/-- One step of the engine over the previous fuel level.  Each field is the
direct transcription of the corresponding function inside `addTypesInSchema`
(`root` is the checked root document captured by the closure). -/
def engStep (root : StringMap) (prev : Eng) : Eng where
  toType := fun st schema path =>
    match lookupAssoc st.typeForPath path.path with
    | some t => .ok (t, st)
    | none => do
        let (result, st1) ← prev.convertToType st schema path
        let st2 ← setTypeForPath st1 path result
        .ok (result, st2)
  convertToType := fun st schema path =>
    match lookupField schema "$ref" with
    | some refJ => do
        let ref ← Ref.parse path.address refJ
        let (target, targetPath) ← Ref.lookupRef ref root schema path
        prev.toType st target targetPath
    | none =>
      match lookupField schema "enum" with
      | some (.arr cases) =>
          let haveNull := cases.any jsonIsNull
          let cases2 := cases.filter (fun c => !jsonIsNull c)
          if cases2.any (fun c => !c.isStr) then
            .error (.fatal ("Non-string enum cases are not supported, at " ++ Ref.toString path))
          else do
            let strs ← checkStringArray (.arr cases2)
            let (tref, st1) := allocNode st (.enum (dedupOrdered strs))
            if haveNull then
              let (tnull, st2) := allocNode st1 (.prim "null")
              let (tu, st3) := allocNode st2 (.union (dedupOrdered [tref, tnull]))
              .ok (tu, st3)
            else
              .ok (tref, st1)
      | _ => do
          let jsonTypes ←
            (match lookupField schema "type" with
             | some t => (checkTypeList t).map some
             | none =>
               match lookupField schema "properties", lookupField schema "additionalProperties" with
               | none, none => Except.ok none
               | _, _ => Except.ok (some ["object"]))
          let (intersectionType, st1) := allocNode st .uniqueIntersection
          let st2 ← setTypeForPath st1 path intersectionType
          let (ts1, st3) ←
            (match lookupField schema "allOf" with
             | none => Except.ok ([], st2)
             | some allOfJ => prev.makeTypesFromCases st2 allOfJ path .allOf)
          let (ts2, st4) ←
            (match lookupField schema "oneOf" with
             | some j =>
                 if jsTruthy j then
                   (prev.convertOneOrAnyOf st3 j path .oneOf).map (fun p => ([p.1], p.2))
                 else Except.ok ([], st3)
             | none => Except.ok ([], st3))
          let (ts3, st5) ←
            (match lookupField schema "anyOf" with
             | some j =>
                 if jsTruthy j then
                   (prev.convertOneOrAnyOf st4 j path .anyOf).map (fun p => ([p.1], p.2))
                 else Except.ok ([], st4)
             | none => Except.ok ([], st4))
          let (ts4, st6) ←
            (match jsonTypes with
             | none => Except.ok ([], st5)
             | some [n] =>
                 (prev.fromTypeName st5 schema (path.pushObject) n).map (fun p => ([p.1], p.2))
             | some names => do
                 let (u, stA) := allocNode st5 .uniqueUnion
                 let (us, stB) ← prev.fromTypeNamesList stA schema path names 0
                 Except.ok ([u], setSetOperationMembers stB u (dedupOrdered us)))
          Except.ok (intersectionType,
            setSetOperationMembers st6 intersectionType (dedupOrdered (ts1 ++ ts2 ++ ts3 ++ ts4)))
  fromTypeName := fun st schema path typeName =>
    match typeName with
    | "object" => do
        let required ← requiredOf schema
        let (unionType, st1) := allocNode st .uniqueUnion
        let st2 ← setTypeForPath st1 path unionType
        let (ts1, st3) ←
          (match lookupField schema "properties" with
           | none => Except.ok ([], st2)
           | some propsJ => do
               let props ← checkStringMapJ propsJ
               let (c, stc) ← prev.makeClass st2 path props required
               Except.ok ([c], stc))
        let (ts2, st4) ←
          (match lookupField schema "additionalProperties" with
           | none => Except.ok ([], st3)
           | some (.bool false) =>
               (match lookupField schema "properties" with
                | none => do
                    let (c, stc) ← prev.makeClass st3 path [] required
                    Except.ok ([c], stc)
                | some _ => Except.ok ([], st3))
           | some addl =>
               if jsTypeofObject addl then do
                 let m ← checkStringMapJ addl
                 let (mp, stm) ← prev.makeMap st3 path m
                 Except.ok ([mp], stm)
               else Except.ok ([], st3))
        let types := ts1 ++ ts2
        let (types2, st5) :=
          if types.isEmpty then
            let (anyT, sA) := allocNode st4 (.prim "any")
            let (mT, sB) := allocNode sA (.mapOf anyT)
            ([mT], sB)
          else (types, st4)
        Except.ok (unionType, setSetOperationMembers st5 unionType (dedupOrdered types2))
    | "array" =>
        (match lookupField schema "items" with
         | some itemsJ => do
             let m ← checkStringMapJ itemsJ
             let (t, st1) ← prev.toType st m (path.push ["items"])
             Except.ok (allocNode st1 (.arrayOf t))
         | none =>
             let (anyT, st1) := allocNode st (.prim "any")
             Except.ok (allocNode st1 (.arrayOf anyT)))
    | "boolean" => .ok (allocNode st (.prim "bool"))
    | "string" =>
        (match lookupField schema "format" with
         | none => .ok (allocNode st (.prim "string"))
         | some (.str "date") => .ok (allocNode st (.prim "date"))
         | some (.str "time") => .ok (allocNode st (.prim "time"))
         | some (.str "date-time") => .ok (allocNode st (.prim "date-time"))
         | some _ => .ok (allocNode st (.prim "string")))
    | "null" => .ok (allocNode st (.prim "null"))
    | "integer" => .ok (allocNode st (.prim "integer"))
    | "number" => .ok (allocNode st (.prim "double"))
    | _ => .error (.fatal ("not a type name: " ++ typeName))
  makeClass := fun st path props required => do
    let (pairs, st1) ← prev.makeClassProps st props required path
    Except.ok (allocNode st1 (.cls pairs))
  makeClassProps := fun st props required path =>
    match props with
    | [] => .ok ([], st)
    | (propName, propSchema) :: rest => do
        let m ← checkStringMapJ propSchema
        let (t, st1) ← prev.toType st m (path.push ["properties", propName])
        let (ps, st2) ← prev.makeClassProps st1 rest required path
        .ok ((propName, t, !(required.contains propName)) :: ps, st2)
  makeMap := fun st path additional => do
    let (v, st1) ← prev.toType st additional (path.push ["additionalProperties"])
    Except.ok (allocNode st1 (.mapOf v))
  makeTypesFromCases := fun st cases path kind =>
    match cases with
    | .arr elems => prev.typesFromList st elems path kind 0
    | _ => .error (.fatal ("Cases are not an array: " ++ jsDisplay cases))
  typesFromList := fun st cases path kind index =>
    match cases with
    | [] => .ok ([], st)
    | c :: rest => do
        let m ← checkStringMapJ c
        let (t, st1) ← prev.toType st m (path.pushCombinator kind index)
        let (ts, st2) ← prev.typesFromList st1 rest path kind (index + 1)
        .ok (t :: ts, st2)
  convertOneOrAnyOf := fun st cases path kind => do
    let (u, st1) := allocNode st .uniqueUnion
    let (ts, st2) ← prev.makeTypesFromCases st1 cases path kind
    Except.ok (u, setSetOperationMembers st2 u (dedupOrdered ts))
  fromTypeNamesList := fun st schema path names index =>
    match names with
    | [] => .ok ([], st)
    | n :: rest => do
        let (t, st1) ← prev.fromTypeName st schema (path.pushType index) n
        let (ts, st2) ← prev.fromTypeNamesList st1 schema path rest (index + 1)
        .ok (t :: ts, st2)

/-- The fuel-indexed engine. -/
def eng (root : StringMap) : Nat → Eng
  | 0 => engBot
  | n + 1 => engStep root (eng root n)

/-- `toType` at a fuel level (memo-table check, then convert and bind). -/
def toType (root : StringMap) (fuel : Nat) (st : ConvState) (schema : StringMap)
    (path : Ref) : Except Err (TypeRef × ConvState) :=
  (eng root fuel).toType st schema path

/-- `convertToType` at a fuel level. -/
def convertToType (root : StringMap) (fuel : Nat) (st : ConvState) (schema : StringMap)
    (path : Ref) : Except Err (TypeRef × ConvState) :=
  (eng root fuel).convertToType st schema path

/-- `fromTypeName` at a fuel level. -/
def fromTypeName (root : StringMap) (fuel : Nat) (st : ConvState) (schema : StringMap)
    (path : Ref) (typeName : String) : Except Err (TypeRef × ConvState) :=
  (eng root fuel).fromTypeName st schema path typeName

/-- `makeClass` at a fuel level. -/
def makeClass (root : StringMap) (fuel : Nat) (st : ConvState) (path : Ref)
    (props : StringMap) (required : List String) : Except Err (TypeRef × ConvState) :=
  (eng root fuel).makeClass st path props required

/-- The property loop of `makeClass` at a fuel level. -/
def makeClassProps (root : StringMap) (fuel : Nat) (st : ConvState) (props : StringMap)
    (required : List String) (path : Ref) :
    Except Err (List (String × TypeRef × Bool) × ConvState) :=
  (eng root fuel).makeClassProps st props required path

/-- `makeMap` at a fuel level. -/
def makeMap (root : StringMap) (fuel : Nat) (st : ConvState) (path : Ref)
    (additional : StringMap) : Except Err (TypeRef × ConvState) :=
  (eng root fuel).makeMap st path additional

/-- `makeTypesFromCases` at a fuel level. -/
def makeTypesFromCases (root : StringMap) (fuel : Nat) (st : ConvState) (cases : JSON)
    (path : Ref) (kind : CombKind) : Except Err (List TypeRef × ConvState) :=
  (eng root fuel).makeTypesFromCases st cases path kind

/-- `convertOneOrAnyOf` at a fuel level. -/
def convertOneOrAnyOf (root : StringMap) (fuel : Nat) (st : ConvState) (cases : JSON)
    (path : Ref) (kind : CombKind) : Except Err (TypeRef × ConvState) :=
  (eng root fuel).convertOneOrAnyOf st cases path kind

/-- The loop of `addTypesInSchema` over the named top-level references:
resolve each against the root document, convert it, and register the result
as a top-level type. -/
def addTypesInSchemaAux (root : StringMap) (rootAddress : String) (fuel : Nat)
    (st : ConvState) : List (String × Ref) → Except Err ConvState
  | [] => .ok st
  | (topLevelName, topLevelRef) :: rest => do
      let (target, targetPath) ← topLevelRef.lookupRef root root (Ref.root rootAddress)
      let (t, st1) ← toType root fuel st target targetPath
      addTypesInSchemaAux root rootAddress fuel (addTopLevel st1 topLevelName t) rest

/-- `addTypesInSchema`: check the root document is a string map, then convert
every named top-level reference against a fresh memo table, returning the
final builder state (the source returns nothing; the state holds the calls it
made into the builder). -/
def addTypesInSchema (fuel : Nat) (rootJson : JSON) (rootAddress : String)
    (references : List (String × Ref)) : Except Err ConvState := do
  let root ← checkStringMapJ rootJson
  addTypesInSchemaAux root rootAddress fuel initState references

/-! ## Generic inversion and list lemmas -/

/-- Inversion of a successful `Except` bind. -/
theorem exceptBind_ok {α β : Type} {x : Except Err α} {f : α → Except Err β} {b : β}
    (h : x >>= f = .ok b) : ∃ a, x = .ok a ∧ f a = .ok b := by
  cases x with
  | error e => exact absurd h (by simp [Bind.bind, Except.bind])
  | ok a => exact ⟨a, rfl, by simpa [Bind.bind, Except.bind] using h⟩

/-- Inversion of a successful `Except` map. -/
theorem exceptMap_ok {α β : Type} {x : Except Err α} {f : α → β} {b : β}
    (h : x.map f = .ok b) : ∃ a, x = .ok a ∧ f a = b := by
  cases x with
  | error e => exact absurd h (by simp [Except.map])
  | ok a => exact ⟨a, rfl, by simpa [Except.map] using h⟩

/-- Membership survives ordered de-duplication. -/
theorem mem_dedupAux {α : Type} [DecidableEq α] (a : α) :
    ∀ (seen l : List α), a ∈ l → a ∈ seen ∨ a ∈ dedupAux seen l := by
  intro seen l
  induction l generalizing seen with
  | nil => intro h; cases h
  | cons x rest ih =>
    intro h
    by_cases hx : x ∈ seen
    · rcases List.mem_cons.mp h with rfl | hrest
      · exact Or.inl hx
      · rcases ih seen hrest with h1 | h1
        · exact Or.inl h1
        · exact Or.inr (by simpa [dedupAux, hx] using h1)
    · rcases List.mem_cons.mp h with rfl | hrest
      · exact Or.inr (by simp [dedupAux, hx])
      · rcases ih (x :: seen) hrest with h1 | h1
        · rcases List.mem_cons.mp h1 with rfl | h2
          · exact Or.inr (by simp [dedupAux, hx])
          · exact Or.inl h2
        · exact Or.inr (by simp [dedupAux, hx, h1])

/-- Membership survives `dedupOrdered`. -/
theorem mem_dedupOrdered {α : Type} [DecidableEq α] {a : α} {l : List α}
    (h : a ∈ l) : a ∈ dedupOrdered l := by
  rcases mem_dedupAux a [] l h with h1 | h1
  · cases h1
  · exact h1

/-- De-duplicating a pair of distinct elements keeps both in order. -/
theorem dedup_pair_ne {a b : Nat} (h : a ≠ b) : dedupOrdered [a, b] = [a, b] := by
  simp [dedupOrdered, dedupAux, Ne.symm h]

/-! ## C1: the memo table is write-once per canonical reference -/

/-- C1: within a conversion run started by `addTypesInSchema`, the path-to-node
memo table is write-once per canonical Reference.  (i) Once a path is bound to
a handle, a later `toType` call on a Reference with that (structurally equal)
path returns the same handle with the state untouched, i.e. without recursing
into `convertToType`.  (ii) `setTypeForPath` rejects rebinding a bound path to
a different handle by failing fast with the source's assertion message.
(iii) Re-setting the same handle is accepted and leaves the table unchanged.
The fail-fast behaviour of `assert` comes from the spec, `Support.ts` not
being part of the sources. -/
theorem c1_memo_write_once :
    (∀ (root : StringMap) (fuel : Nat) (st : ConvState) (schema : StringMap) (r : Ref)
       (t : TypeRef), lookupAssoc st.typeForPath r.path = some t →
         toType root (fuel + 1) st schema r = .ok (t, st))
  ∧ (∀ (st : ConvState) (r : Ref) (t t0 : TypeRef),
       lookupAssoc st.typeForPath r.path = some t0 → t0 ≠ t →
         setTypeForPath st r t = .error (.fatal "Trying to set path again to different type"))
  ∧ (∀ (st : ConvState) (r : Ref) (t : TypeRef),
       lookupAssoc st.typeForPath r.path = some t → setTypeForPath st r t = .ok st) := by
  refine ⟨?_, ?_, ?_⟩
  · intro root fuel st schema r t h
    simp [toType, eng, engStep, h]
  · intro st r t t0 h hne
    simp [setTypeForPath, h, hne]
  · intro st r t h
    simp [setTypeForPath, h]

/-- A state with the root path bound to handle 5, for the C1 witness. -/
def stBound : ConvState :=
  ⟨[([PathElement.root], 5)], 6, [], [], []⟩

/-- Witness for C1 at a concrete bound state: a repeated `toType` returns the
bound handle 5 unchanged, rebinding to 7 fails fast, rebinding to 5 is a
no-op. -/
theorem c1_memo_write_once_witness :
    toType [] 1 stBound [] (Ref.root "a") = .ok (5, stBound)
  ∧ setTypeForPath stBound (Ref.root "a") 7 =
      .error (.fatal "Trying to set path again to different type")
  ∧ setTypeForPath stBound (Ref.root "a") 5 = .ok stBound :=
  ⟨c1_memo_write_once.1 [] 0 stBound [] (Ref.root "a") 5 rfl,
   c1_memo_write_once.2.1 stBound (Ref.root "a") 7 5 rfl (by decide),
   c1_memo_write_once.2.2 stBound (Ref.root "a") 5 rfl⟩

/-! ## C2: forward declaration breaks the self-referential cycle -/

/-- The schema of a self-referential definition:
`definitions.Node.properties.next.$ref = "#/definitions/Node"`. -/
def nodeSchemaC2 : JSON :=
  .obj [("properties", .obj [("next", .obj [("$ref", .str "#/definitions/Node")])])]

/-- The root document holding the self-referential definition. -/
def rootSchemaC2 : JSON :=
  .obj [("definitions", .obj [("Node", nodeSchemaC2)])]

/-- The top-level references for the C2 run: the `Node` definition. -/
def refsC2 : List (String × Ref) :=
  [("Node", (Ref.root "addr").pushDefinition "Node")]

/-- The final state of the C2 run. -/
def stC2 : ConvState :=
  ⟨[([PathElement.root, PathElement.definition "Node", PathElement.object,
      PathElement.keyOrIndex "properties", PathElement.keyOrIndex "next"], 0),
    ([PathElement.root, PathElement.definition "Node", PathElement.object], 1),
    ([PathElement.root, PathElement.definition "Node"], 0)],
   3,
   [(2, NodeDesc.cls [("next", 0, true)]), (1, NodeDesc.uniqueUnion),
    (0, NodeDesc.uniqueIntersection)],
   [(0, [1]), (1, [2])],
   [("Node", 0)]⟩

/-- C2: `convertToType` pre-registers its intersection node in the memo table
before converting members, so the self-referential schema
`definitions.Node.properties.next.$ref = "#/definitions/Node"` converts in
finitely many steps (the run succeeds with finite fuel).  In the final state:
the path `#/definitions/Node` is bound to the intersection handle 0; the class
built for `Node` gives its `next` property exactly that same handle 0 (the
inner `$ref` hit the memo entry of the still-being-populated intersection);
and the intersection's member set was filled by exactly one
`setSetOperationMembers` call, which is the newest entry of the log, i.e.
happened after the members were converted. -/
theorem c2_cycle_forward_declaration :
    addTypesInSchema 30 rootSchemaC2 "addr" refsC2 = .ok stC2
  ∧ lookupAssoc stC2.typeForPath [PathElement.root, PathElement.definition "Node"] = some 0
  ∧ lookupAssoc stC2.nodes 0 = some NodeDesc.uniqueIntersection
  ∧ lookupAssoc stC2.nodes 2 = some (NodeDesc.cls [("next", 0, true)])
  ∧ (stC2.setOps.filter (fun p => p.1 == 0)).length = 1
  ∧ stC2.setOps.head? = some (0, [1])
  ∧ stC2.topLevels = [("Node", 0)] :=
  ⟨rfl, rfl, rfl, rfl, rfl, rfl, rfl⟩

/-! ## C9: the special two-segment treatment of "definitions" in Ref.parse -/

/-- C9: `Ref.parse` maps a segment equal to `"definitions"` to a single
`Definition` element consuming the following segment as the name, but only
when another segment follows; a trailing `"definitions"` segment stays an
ordinary `KeyOrIndex` element.  The third conjunct ties the element loop to
`Ref.parse` itself. -/
theorem c9_parse_definitions :
    (∀ (name : String) (rest : List String),
       parseElements ("definitions" :: name :: rest) =
         PathElement.definition name :: parseElements rest)
  ∧ parseElements ["definitions"] = [PathElement.keyOrIndex "definitions"]
  ∧ (∀ (a s : String),
       Ref.parse a (.str s) = .ok ⟨a, parseElements (jsSplitSlash s)⟩) := by
  refine ⟨?_, ?_, ?_⟩
  · intro name rest
    rfl
  · rfl
  · intro a s
    rfl

/-! ## C10: the backward name scan falls back to "Something" -/

/-- The backward scan returns `"Something"` when no naming element exists. -/
theorem refNameAux_something :
    ∀ (l : List PathElement),
      (∀ e ∈ l, ∃ k, e = PathElement.keyOrIndex k ∧ numberString k = false) →
      refNameAux l = .ok "Something" := by
  intro l
  induction l with
  | nil => intro _; rfl
  | cons e rest ih =>
    intro h
    obtain ⟨k, rfl, hk⟩ := h e (List.mem_cons_self e rest)
    have ih2 := ih (fun e' he' => h e' (List.mem_cons_of_mem _ he'))
    simp [refNameAux, hk, ih2]

/-- C10: `Ref.name` returns the constant `"Something"` rather than failing
when the backward scan exhausts the whole path without meeting `Root`, a
`Definition`, or an all-digits `KeyOrIndex`, i.e. when every element is a
`KeyOrIndex` whose key does not match the number regexp. -/
theorem c10_name_something (r : Ref)
    (h : ∀ e ∈ r.path, ∃ k, e = PathElement.keyOrIndex k ∧ numberString k = false) :
    Ref.name r = .ok "Something" := by
  unfold Ref.name
  exact refNameAux_something r.path.reverse (fun e he => h e (List.mem_reverse.mp he))

/-- Witness for C10: the state is reachable by parsing a reference string with
no `"#"` segment and only non-numeric keys. -/
theorem c10_name_something_witness :
    Ref.parse "base" (.str "foo/bar") =
      .ok ⟨"base", [PathElement.keyOrIndex "foo", PathElement.keyOrIndex "bar"]⟩
  ∧ Ref.name ⟨"base", [PathElement.keyOrIndex "foo", PathElement.keyOrIndex "bar"]⟩ =
      .ok "Something" :=
  ⟨rfl,
   c10_name_something ⟨"base", [PathElement.keyOrIndex "foo", PathElement.keyOrIndex "bar"]⟩
     (by
       intro e he
       simp only [List.mem_cons, List.not_mem_nil, or_false] at he
       rcases he with rfl | rfl
       · exact ⟨"foo", rfl, by decide⟩
       · exact ⟨"bar", rfl, by decide⟩)⟩

/-! ## C8: Reference invariants (corrected: parse need not start with Root) -/

/-- Counterexample to C8 as stated: a Reference constructed via `Ref.parse`
from a string without a `"#"` segment does not have `Root` as its first
element. -/
theorem c8_counterexample_parse_no_root :
    Ref.parse "base" (.str "foo") = .ok ⟨"base", [PathElement.keyOrIndex "foo"]⟩
  ∧ [PathElement.keyOrIndex "foo"].head? ≠ some PathElement.root :=
  ⟨rfl, by decide⟩

/-- Unfolded form of `Ref.push`: appending `KeyOrIndex` elements. -/
theorem push_eq (keys : List String) :
    ∀ (r : Ref), Ref.push r keys =
      ⟨r.address, r.path ++ keys.map PathElement.keyOrIndex⟩ := by
  induction keys with
  | nil => intro r; simp [Ref.push]
  | cons k ks ih =>
    intro r
    have step : Ref.push r (k :: ks) =
        Ref.push (r.pushElement (PathElement.keyOrIndex k)) ks := rfl
    rw [step, ih]
    simp [Ref.pushElement]

/-- C8 (amended): a Reference built by `Ref.root` has `Root` as its first
element, and every push operation merely appends elements — producing a new
value whose address is unchanged and whose path extends the receiver's, hence
preserving the first element of any nonempty path — so every Reference derived
from `root` by pushes keeps `Root` first; `parse` is exempt (see the
counterexample).  Structural equality of References is exactly equality of
address and element sequence. -/
theorem c8_reference_invariants :
    (∀ a : String, (Ref.root a).path.head? = some PathElement.root)
  ∧ (∀ (r : Ref) (keys : List String),
       Ref.push r keys = ⟨r.address, r.path ++ keys.map PathElement.keyOrIndex⟩)
  ∧ (∀ (r : Ref) (name : String),
       Ref.pushDefinition r name = ⟨r.address, r.path ++ [PathElement.definition name]⟩)
  ∧ (∀ r : Ref, Ref.pushObject r = ⟨r.address, r.path ++ [PathElement.object]⟩)
  ∧ (∀ (r : Ref) (i : Nat), Ref.pushType r i = ⟨r.address, r.path ++ [PathElement.type i]⟩)
  ∧ (∀ (r : Ref) (e : PathElement), r.path ≠ [] →
       (r.pushElement e).path.head? = r.path.head?)
  ∧ (∀ r1 r2 : Ref, r1 = r2 ↔ r1.address = r2.address ∧ r1.path = r2.path) := by
  refine ⟨fun a => rfl, fun r keys => push_eq keys r, fun r name => rfl, fun r => rfl,
    fun r i => rfl, ?_, ?_⟩
  · intro r e h
    cases hp : r.path with
    | nil => exact absurd hp h
    | cons x xs => simp [Ref.pushElement, hp]
  · intro r1 r2
    constructor
    · intro h
      subst h
      exact ⟨rfl, rfl⟩
    · intro ⟨h1, h2⟩
      cases r1
      cases r2
      simp_all

/-- Witness for C8 (amended) at concrete references. -/
theorem c8_reference_invariants_witness :
    ((Ref.root "a").pushDefinition "N").path.head? = some PathElement.root
  ∧ ((Ref.root "a").pushElement PathElement.object).path.head? = (Ref.root "a").path.head?
  ∧ (Ref.push (Ref.root "a") ["x", "y"] =
      ⟨"a", [PathElement.root, PathElement.keyOrIndex "x", PathElement.keyOrIndex "y"]⟩) :=
  ⟨rfl,
   c8_reference_invariants.2.2.2.2.2.1 (Ref.root "a") PathElement.object (by decide),
   c8_reference_invariants.2.1 (Ref.root "a") ["x", "y"]⟩

/-! ## C5: the reference resolver walk -/

/-- C5: the behaviour of the `lookupRef` walk, one conjunct per element shape.
(1) `Ref.lookupRef` starts the walk on the local document with the local
reference's path and address.  (2) A `Root` element restarts the walk at the
root document with the accumulated local path reset to just `Root`.
(3) A `Definition(name)` element resolves `fragment.definitions[name]`,
each of the three steps checked to be an object (absent fields behave as
`undefined` and fail the check).  (4) A `KeyOrIndex` element indexes an array
fragment at the base-10 integer parse of the key, and a mapping fragment at
the key itself.  (5) `Type` and `Object` elements are fatal.  (6) An exhausted
path returns the fragment (checked to be an object) paired with the
accumulated concrete reference under the local reference's address.
(7) The object checks succeed exactly on keyed mappings.  The helper
`checkStringMapOpt` is modelled from the spec, `Support.ts` not being in the
sources. -/
theorem c5_lookupRef_walk :
    (∀ (target : Ref) (root localSchema : StringMap) (localRef : Ref),
       Ref.lookupRef target root localSchema localRef =
         lookupAux root localRef.address (some (.obj localSchema)) localRef.path target.path)
  ∧ (∀ (root : StringMap) (addr : String) (local_ : Option JSON)
       (lp rest : List PathElement),
       lookupAux root addr local_ lp (PathElement.root :: rest) =
         lookupAux root addr (some (.obj root)) [PathElement.root] rest)
  ∧ (∀ (root : StringMap) (addr : String) (local_ : Option JSON)
       (lp rest : List PathElement) (name : String),
       lookupAux root addr local_ lp (PathElement.definition name :: rest) =
         (do
           let m ← checkStringMapOpt local_
           let defs ← checkStringMapOpt (lookupField m "definitions")
           let d ← checkStringMapOpt (lookupField defs name)
           lookupAux root addr (some (.obj d)) (lp ++ [PathElement.definition name]) rest))
  ∧ (∀ (root : StringMap) (addr : String) (elems : List JSON)
       (lp rest : List PathElement) (key : String),
       lookupAux root addr (some (.arr elems)) lp (PathElement.keyOrIndex key :: rest) =
         lookupAux root addr ((jsParseInt key).bind (fun i => elems.get? i))
           (lp ++ [PathElement.keyOrIndex key]) rest)
  ∧ (∀ (root : StringMap) (addr : String) (m : StringMap)
       (lp rest : List PathElement) (key : String),
       lookupAux root addr (some (.obj m)) lp (PathElement.keyOrIndex key :: rest) =
         lookupAux root addr (lookupField m key) (lp ++ [PathElement.keyOrIndex key]) rest)
  ∧ (∀ (root : StringMap) (addr : String) (local_ : Option JSON)
       (lp rest : List PathElement) (i : Nat),
       lookupAux root addr local_ lp (PathElement.type i :: rest) =
         .error (.fatal "Cannot look up path that indexes \"type\"")
     ∧ lookupAux root addr local_ lp (PathElement.object :: rest) =
         .error (.fatal "Cannot look up path that indexes \"object\""))
  ∧ (∀ (root : StringMap) (addr : String) (local_ : Option JSON)
       (lp : List PathElement),
       lookupAux root addr local_ lp [] =
         (checkStringMapOpt local_).map (fun m => (m, (⟨addr, lp⟩ : Ref))))
  ∧ (∀ oj : Option JSON,
       (∃ m, checkStringMapOpt oj = .ok m) ↔ (∃ m, oj = some (.obj m))) := by
  refine ⟨fun _ _ _ _ => rfl, fun _ _ _ _ _ => rfl, fun _ _ _ _ _ _ => rfl,
    fun _ _ _ _ _ _ => rfl, fun _ _ _ _ _ _ => rfl,
    fun _ _ _ _ _ _ => ⟨rfl, rfl⟩, fun _ _ _ _ => rfl, ?_⟩
  intro oj
  constructor
  · intro ⟨m, hm⟩
    cases oj with
    | none => exact absurd hm (by simp [checkStringMapOpt])
    | some j =>
      cases j <;> simp_all [checkStringMapOpt, checkStringMapJ]
  · intro ⟨m, hm⟩
    subst hm
    exact ⟨m, rfl⟩

/-! ## C7: parse after toString (corrected round-trip law) -/

/-- String append acts as list append on the character data. -/
theorem stringAppend_data (s t : String) : (s ++ t).data = s.data ++ t.data := by
  cases s
  cases t
  rfl

/-- Rebuilding a string from its character data is the identity. -/
theorem stringMk_data (s : String) : String.mk s.data = s := by
  cases s
  rfl

/-- A string without a slash splits into itself. -/
theorem noSlash_split (s : List Char) (h : '/' ∉ s) : splitOnSlash s = [s] := by
  induction s with
  | nil => rfl
  | cons c cs ih =>
    have hc : ¬ c = '/' := fun hh => h (hh ▸ List.mem_cons_self c cs)
    have ih2 := ih (fun hm => h (List.mem_cons_of_mem _ hm))
    simp [splitOnSlash, hc, ih2]

/-- Splitting past a slash-free prefix peels it off. -/
theorem split_append (s t : List Char) (h : '/' ∉ s) :
    splitOnSlash (s ++ '/' :: t) = s :: splitOnSlash t := by
  induction s with
  | nil => simp [splitOnSlash]
  | cons c cs ih =>
    have hc : ¬ c = '/' := fun hh => h (hh ▸ List.mem_cons_self c cs)
    have ih2 := ih (fun hm => h (List.mem_cons_of_mem _ hm))
    simp [splitOnSlash, hc, ih2]

/-- Splitting a join of slash-free nonempty segment lists is the identity. -/
theorem split_join (ls : List (List Char)) (hne : ls ≠ []) (h : ∀ s ∈ ls, '/' ∉ s) :
    splitOnSlash (joinSlash ls) = ls := by
  induction ls with
  | nil => exact absurd rfl hne
  | cons s rest ih =>
    cases rest with
    | nil => exact noSlash_split s (h s (List.mem_cons_self s []))
    | cons s2 rest2 =>
      have hj : joinSlash (s :: s2 :: rest2) = s ++ '/' :: joinSlash (s2 :: rest2) := rfl
      rw [hj, split_append s _ (h s (List.mem_cons_self s _))]
      rw [ih (by simp) (fun x hx => h x (List.mem_cons_of_mem _ hx))]

/-- Joining over a nonempty tail inserts a separator. -/
theorem joinSlash_cons (s : List Char) (l : List (List Char)) (h : l ≠ []) :
    joinSlash (s :: l) = s ++ '/' :: joinSlash l := by
  cases l with
  | nil => exact absurd rfl h
  | cons x xs => rfl

/-- A segment containing a slash contributes to a join exactly like the two
segments around that slash. -/
theorem joinSlash_flatten (xs : List (List Char)) (a b : List Char) (ys : List (List Char)) :
    joinSlash (xs ++ (a ++ '/' :: b) :: ys) = joinSlash (xs ++ a :: b :: ys) := by
  induction xs with
  | nil =>
    cases ys with
    | nil => simp [joinSlash]
    | cons y ys2 =>
      rw [List.nil_append, List.nil_append,
        joinSlash_cons _ (y :: ys2) (by simp),
        joinSlash_cons a (b :: y :: ys2) (by simp),
        joinSlash_cons b (y :: ys2) (by simp)]
      simp
  | cons x xs2 ih =>
    rw [List.cons_append, List.cons_append,
      joinSlash_cons x _ (by simp),
      joinSlash_cons x _ (by simp), ih]

/-- String-level version of `joinSlash_flatten`. -/
theorem jsJoin_flatten (xs : List String) (a b : String) (ys : List String) :
    jsJoinSlash (xs ++ (a ++ "/" ++ b) :: ys) = jsJoinSlash (xs ++ a :: b :: ys) := by
  unfold jsJoinSlash
  congr 1
  rw [List.map_append, List.map_append, List.map_cons, List.map_cons, List.map_cons]
  have hd : (a ++ "/" ++ b).data = a.data ++ '/' :: b.data := by
    rw [stringAppend_data, stringAppend_data]
    simp
  rw [hd]
  exact joinSlash_flatten _ _ _ _

/-- Whether a string contains no slash. -/
def slashFree (s : String) : Bool :=
  decide ('/' ∉ s.data)

/-- Splitting a join of slash-free string segments is the identity. -/
theorem jsSplit_jsJoin (segs : List String) (hne : segs ≠ [])
    (h : ∀ s ∈ segs, slashFree s = true) :
    jsSplitSlash (jsJoinSlash segs) = segs := by
  unfold jsSplitSlash jsJoinSlash
  rw [show (String.mk (joinSlash (segs.map String.data))).data =
        joinSlash (segs.map String.data) from rfl]
  rw [split_join _ (by simpa using hne)
      (by
        intro l hl
        rcases List.mem_map.mp hl with ⟨s, hs, rfl⟩
        exact of_decide_eq_true (h s hs))]
  rw [List.map_map]
  have : ∀ l : List String, l.map (fun s => String.mk s.data) = l := by
    intro l
    induction l with
    | nil => rfl
    | cons x xs ih => simp [stringMk_data, ih]
  exact this segs

/-- One construction step of a Reference for the round-trip law. -/
inductive BuildOp where
  | push (key : String) : BuildOp
  | pushDef (name : String) : BuildOp
deriving DecidableEq, Repr

/-- Apply one construction step. -/
def applyOp (r : Ref) : BuildOp → Ref
  | .push k => r.push [k]
  | .pushDef n => r.pushDefinition n

/-- Apply a sequence of construction steps. -/
def applyOps (r : Ref) : List BuildOp → Ref
  | [] => r
  | op :: ops => applyOps (applyOp r op) ops

/-- The path elements a sequence of steps appends. -/
def opElems : List BuildOp → List PathElement
  | [] => []
  | .push k :: ops => PathElement.keyOrIndex k :: opElems ops
  | .pushDef n :: ops => PathElement.definition n :: opElems ops

/-- The strings those elements print to (one per element). -/
def rawSegs : List BuildOp → List String
  | [] => []
  | .push k :: ops => k :: rawSegs ops
  | .pushDef n :: ops => ("definitions/" ++ n) :: rawSegs ops

/-- The slash-separated segments of the printed string (a `Definition`
element prints as two segments). -/
def flatSegs : List BuildOp → List String
  | [] => []
  | .push k :: ops => k :: flatSegs ops
  | .pushDef n :: ops => "definitions" :: n :: flatSegs ops

/-- The conditions under which printing and re-parsing round-trips: no key or
definition name contains a slash, no pushed key is the root marker, and a
pushed key equal to the literal segment consumed specially by the parser may
only stand last. -/
def safeOps : List BuildOp → Bool
  | [] => true
  | .push k :: ops =>
      slashFree k && !(k == "#") && (!(k == "definitions") || ops.isEmpty) && safeOps ops
  | .pushDef n :: ops => slashFree n && safeOps ops

/-- Applying steps appends their elements. -/
theorem applyOps_eq : ∀ (ops : List BuildOp) (r : Ref),
    applyOps r ops = ⟨r.address, r.path ++ opElems ops⟩ := by
  intro ops
  induction ops with
  | nil =>
    intro r
    cases r
    simp [applyOps, opElems]
  | cons op ops ih =>
    intro r
    cases op with
    | push k =>
      have h1 : applyOps r (BuildOp.push k :: ops) =
          applyOps (r.push [k]) ops := rfl
      rw [h1, ih, push_eq]
      simp [opElems]
    | pushDef n =>
      have h1 : applyOps r (BuildOp.pushDef n :: ops) =
          applyOps (r.pushDefinition n) ops := rfl
      rw [h1, ih]
      simp [Ref.pushDefinition, Ref.pushElement, opElems]

/-- The elements print to the raw segments. -/
theorem opElems_toString : ∀ ops : List BuildOp,
    (opElems ops).map elementToString = rawSegs ops := by
  intro ops
  induction ops with
  | nil => rfl
  | cons op ops ih =>
    cases op <;> simp [opElems, rawSegs, elementToString, ih]

/-- Printing a Reference built from `root` by steps. -/
theorem toString_applyOps (a : String) (ops : List BuildOp) :
    Ref.toString (applyOps (Ref.root a) ops) = jsJoinSlash ("#" :: rawSegs ops) := by
  rw [applyOps_eq]
  unfold Ref.toString
  simp [Ref.root, elementToString, opElems_toString]

/-- The join does not distinguish raw from flattened segments. -/
theorem join_raw_flat : ∀ (ops : List BuildOp) (pre : List String),
    jsJoinSlash (pre ++ rawSegs ops) = jsJoinSlash (pre ++ flatSegs ops) := by
  intro ops
  induction ops with
  | nil => intro pre; rfl
  | cons op ops ih =>
    intro pre
    cases op with
    | push k =>
      have h1 : pre ++ rawSegs (BuildOp.push k :: ops) = (pre ++ [k]) ++ rawSegs ops := by
        simp [rawSegs]
      have h2 : pre ++ flatSegs (BuildOp.push k :: ops) = (pre ++ [k]) ++ flatSegs ops := by
        simp [flatSegs]
      rw [h1, h2, ih]
    | pushDef n =>
      have hdefs : ("definitions/" ++ n) = ("definitions" ++ "/" ++ n) := by
        have : ("definitions/" : String) = "definitions" ++ "/" := by decide
        rw [this, String.append_assoc]
      have h1 : pre ++ rawSegs (BuildOp.pushDef n :: ops) =
          pre ++ ("definitions" ++ "/" ++ n) :: rawSegs ops := by
        simp [rawSegs, hdefs]
      rw [h1, jsJoin_flatten]
      have h2 : pre ++ "definitions" :: n :: rawSegs ops =
          (pre ++ ["definitions", n]) ++ rawSegs ops := by simp
      have h3 : pre ++ flatSegs (BuildOp.pushDef n :: ops) =
          (pre ++ ["definitions", n]) ++ flatSegs ops := by simp [flatSegs]
      rw [h2, h3, ih]

/-- Under the safety conditions, parsing the flattened segments recovers the
pushed elements. -/
theorem parse_flat : ∀ ops : List BuildOp, safeOps ops = true →
    parseElements (flatSegs ops) = opElems ops := by
  intro ops
  induction ops with
  | nil => intro _; rfl
  | cons op ops ih =>
    intro h
    cases op with
    | push k =>
      simp only [safeOps, Bool.and_eq_true, Bool.or_eq_true, Bool.not_eq_true'] at h
      obtain ⟨⟨⟨hsf, hhash⟩, hdefs⟩, hsafe⟩ := h
      have hk1 : ¬ k = "#" := by
        intro hk
        rw [hk] at hhash
        simp at hhash
      by_cases hk2 : k = "definitions"
      · have hops : ops = [] := by
          rcases hdefs with hx | hx
          · rw [hk2] at hx; simp at hx
          · exact List.isEmpty_iff.mp hx
        subst hops
        subst hk2
        rfl
      · show parseElements (k :: flatSegs ops) =
            PathElement.keyOrIndex k :: opElems ops
        rw [← ih hsafe]
        cases hfs : flatSegs ops with
        | nil => rw [parseElements.eq_2, if_neg hk1, if_neg hk2]
        | cons f fs => rw [parseElements.eq_3, if_neg hk1, if_neg hk2]
    | pushDef n =>
      simp only [safeOps, Bool.and_eq_true] at h
      have hstep : parseElements ("definitions" :: n :: flatSegs ops) =
          PathElement.definition n :: parseElements (flatSegs ops) := rfl
      simp [flatSegs, hstep, opElems, ih h.2]

/-- Under the safety conditions every flattened segment is slash-free. -/
theorem flat_slashFree : ∀ ops : List BuildOp, safeOps ops = true →
    ∀ s ∈ flatSegs ops, slashFree s = true := by
  intro ops
  induction ops with
  | nil => intro _ s hs; cases hs
  | cons op ops ih =>
    intro h s hs
    cases op with
    | push k =>
      simp only [safeOps, Bool.and_eq_true] at h
      rcases List.mem_cons.mp hs with rfl | hs2
      · exact h.1.1.1
      · exact ih h.2 s hs2
    | pushDef n =>
      simp only [safeOps, Bool.and_eq_true] at h
      rcases List.mem_cons.mp hs with rfl | hs2
      · decide
      · rcases List.mem_cons.mp hs2 with rfl | hs3
        · exact h.1
        · exact ih h.2 s hs3

/-- Counterexample to C7 as stated: the Reference built by
`root("base").push("definitions", "x")` — only `push` calls, so only `Root`
and `KeyOrIndex` elements — prints to `"#/definitions/x"`, which re-parses to
a `Definition` element rather than the original two `KeyOrIndex` elements. -/
theorem c7_counterexample_push_definitions :
    Ref.toString (Ref.push (Ref.root "base") ["definitions", "x"]) = "#/definitions/x"
  ∧ Ref.parse "base" (.str (Ref.toString (Ref.push (Ref.root "base") ["definitions", "x"]))) =
      .ok ⟨"base", [PathElement.root, PathElement.definition "x"]⟩
  ∧ (Ref.push (Ref.root "base") ["definitions", "x"]).path =
      [PathElement.root, PathElement.keyOrIndex "definitions", PathElement.keyOrIndex "x"]
  ∧ Ref.parse "base" (.str (Ref.toString (Ref.push (Ref.root "base") ["definitions", "x"]))) ≠
      .ok (Ref.push (Ref.root "base") ["definitions", "x"]) := by
  refine ⟨rfl, rfl, rfl, ?_⟩
  intro h
  have e1 : Ref.parse "base" (.str (Ref.toString (Ref.push (Ref.root "base") ["definitions", "x"]))) =
      .ok ⟨"base", [PathElement.root, PathElement.definition "x"]⟩ := rfl
  rw [e1] at h
  exact absurd (Except.ok.inj h) (by decide)

/-- C7 (amended): for a Reference built by `root` followed by `push` and
`pushDefinition` steps, `parse` after `toString` under the same base address
reproduces the Reference exactly — address and full `Root` / `Definition` /
`KeyOrIndex` element sequence — provided no pushed key or definition name
contains `"/"`, no pushed key is `"#"`, and a pushed key `"definitions"`
occurs only as the final element.  `pushType` is excluded: a `Type` element
prints as the two segments `type/<index>`, which re-parse as two `KeyOrIndex`
elements, so no Reference with a `Type` element round-trips. -/
theorem c7_parse_toString_roundtrip (a : String) (ops : List BuildOp)
    (h : safeOps ops = true) :
    Ref.parse a (.str (Ref.toString (applyOps (Ref.root a) ops))) =
      .ok (applyOps (Ref.root a) ops) := by
  rw [toString_applyOps]
  have h1 : jsJoinSlash ("#" :: rawSegs ops) = jsJoinSlash ("#" :: flatSegs ops) := by
    have := join_raw_flat ops ["#"]
    simpa using this
  rw [h1]
  have e1 : ∀ s : String, Ref.parse a (.str s) = .ok ⟨a, parseElements (jsSplitSlash s)⟩ :=
    fun s => rfl
  rw [e1]
  rw [jsSplit_jsJoin ("#" :: flatSegs ops) (by simp)
      (by
        intro s hs
        rcases List.mem_cons.mp hs with rfl | hs2
        · decide
        · exact flat_slashFree ops h s hs2)]
  have e2 : parseElements ("#" :: flatSegs ops) =
      PathElement.root :: parseElements (flatSegs ops) := by
    cases hfs : flatSegs ops with
    | nil => rfl
    | cons f fs =>
      rw [parseElements.eq_3]
      simp
  rw [e2, parse_flat ops h, applyOps_eq]
  rfl

/-- Witness for C7 (amended) at a concrete safe construction sequence. -/
theorem c7_parse_toString_roundtrip_witness :
    safeOps [BuildOp.pushDef "Node", BuildOp.push "x"] = true
  ∧ Ref.parse "a"
      (.str (Ref.toString (applyOps (Ref.root "a") [BuildOp.pushDef "Node", BuildOp.push "x"]))) =
      .ok (applyOps (Ref.root "a") [BuildOp.pushDef "Node", BuildOp.push "x"]) :=
  ⟨by decide,
   c7_parse_toString_roundtrip "a" [BuildOp.pushDef "Node", BuildOp.push "x"] (by decide)⟩

/-! ## C6: structural validation failures abort the run (corrected: the
malformed-type messages do not name the offending path) -/

/-- A one-entry top-level reference list converting the document root, used by
the C6 runs. -/
def topRefs : List (String × Ref) :=
  [("TopLevel", Ref.root "addr")]

/-- Counterexample to C6 as stated: converting the schema with an empty
`type` array aborts the run, but the error message is the bare assertion text,
which does not contain the offending path's string form `"#"` at all — the
claim that every such failure names the offending path is false. -/
theorem c6_counterexample_type_message_has_no_path :
    addTypesInSchema 10 (.obj [("type", .arr [])]) "addr" topRefs =
      .error (.fatal "JSON Schema must specify at least one type")
  ∧ Ref.toString ⟨"addr", [PathElement.root]⟩ = "#"
  ∧ ¬ List.IsInfix "#".data "JSON Schema must specify at least one type".data :=
  ⟨rfl, rfl, by decide⟩

/-- C6 (amended): every structural validation failure — an empty `type` array,
a non-string `type` array entry, and a non-string non-null `enum` case —
aborts the entire conversion run immediately: the run's only outcome is the
error, with no final builder state, hence no partial graph and no substitute
node.  The enum failure's message names the offending path via the Reference's
string form, but the malformed-`type` messages are the bare assertion/panic
texts without the path. -/
theorem c6_validation_failures_abort :
    addTypesInSchema 10 (.obj [("type", .arr [])]) "addr" topRefs =
      .error (.fatal "JSON Schema must specify at least one type")
  ∧ addTypesInSchema 10 (.obj [("type", .arr [.num 3])]) "addr" topRefs =
      .error (.fatal "element of type is not a string: 3")
  ∧ addTypesInSchema 10 (.obj [("enum", .arr [.str "a", .num 3])]) "addr" topRefs =
      .error (.fatal ("Non-string enum cases are not supported, at " ++
        Ref.toString ⟨"addr", [PathElement.root]⟩))
  ∧ List.IsInfix (Ref.toString ⟨"addr", [PathElement.root]⟩).data
      "Non-string enum cases are not supported, at #".data :=
  ⟨rfl, rfl, rfl, by decide⟩

/-! ## C4: enum conversion -/

/-- The string entries of an enum list, in order (the remaining cases after
`null` removal, when all of them are strings). -/
def strCases (l : List JSON) : List String :=
  l.filterMap (fun c => match c with | .str s => some s | _ => none)

/-- When every entry is a string or null, no non-null remainder fails the
string check. -/
theorem filter_no_nonstr (entries : List JSON)
    (h : entries.all (fun c => jsonIsNull c || c.isStr) = true) :
    (entries.filter (fun c => !jsonIsNull c)).any (fun c => !c.isStr) = false := by
  induction entries with
  | nil => rfl
  | cons c rest ih =>
    simp only [List.all_cons, Bool.and_eq_true] at h
    cases c <;> simp_all [jsonIsNull, JSON.isStr, List.filter, List.any_cons]

/-- When every entry is a string or null, checking the null-free remainder as
a string array yields exactly the string entries in order. -/
theorem strCases_check (entries : List JSON)
    (h : entries.all (fun c => jsonIsNull c || c.isStr) = true) :
    checkStringArray (.arr (entries.filter (fun c => !jsonIsNull c))) =
      .ok (strCases entries) := by
  induction entries with
  | nil => rfl
  | cons c rest ih =>
    simp only [List.all_cons, Bool.and_eq_true] at h
    have ih2 := ih h.2
    cases c with
    | null =>
      have hfil : List.filter (fun c => !jsonIsNull c) (JSON.null :: rest) =
          List.filter (fun c => !jsonIsNull c) rest := by
        simp [List.filter_cons, jsonIsNull]
      have hsc : strCases (JSON.null :: rest) = strCases rest := by
        simp [strCases, List.filterMap_cons]
      rw [hfil, hsc]
      exact ih2
    | str s =>
      have hfil : List.filter (fun c => !jsonIsNull c) (JSON.str s :: rest) =
          JSON.str s :: List.filter (fun c => !jsonIsNull c) rest := by
        simp [List.filter_cons, jsonIsNull]
      have hsc : strCases (JSON.str s :: rest) = s :: strCases rest := by
        simp [strCases, List.filterMap_cons]
      rw [hfil, hsc]
      have e1 : checkStringArray (JSON.arr (JSON.str s :: List.filter (fun c => !jsonIsNull c) rest)) =
          (checkStringArray (JSON.arr (List.filter (fun c => !jsonIsNull c) rest))).map
            (fun l => s :: l) := rfl
      rw [e1, ih2]
      rfl
    | bool b => simp [jsonIsNull, JSON.isStr] at h
    | num n => simp [jsonIsNull, JSON.isStr] at h
    | arr l => simp [jsonIsNull, JSON.isStr] at h
    | obj l => simp [jsonIsNull, JSON.isStr] at h

/-- When some entry is neither a string nor null, the null-free remainder
contains a non-string. -/
theorem filter_any_nonstr (entries : List JSON)
    (h : entries.all (fun c => jsonIsNull c || c.isStr) = false) :
    (entries.filter (fun c => !jsonIsNull c)).any (fun c => !c.isStr) = true := by
  induction entries with
  | nil => simp [List.all_nil] at h
  | cons c rest ih =>
    simp only [List.all_cons, Bool.and_eq_false_iff] at h
    cases c with
    | null =>
      rcases h with h1 | h1
      · simp [jsonIsNull] at h1
      · have hfil : List.filter (fun c => !jsonIsNull c) (JSON.null :: rest) =
            List.filter (fun c => !jsonIsNull c) rest := by
          simp [List.filter_cons, jsonIsNull]
        rw [hfil]
        exact ih h1
    | str s =>
      rcases h with h1 | h1
      · simp [jsonIsNull, JSON.isStr] at h1
      · have hfil : List.filter (fun c => !jsonIsNull c) (JSON.str s :: rest) =
            JSON.str s :: List.filter (fun c => !jsonIsNull c) rest := by
          simp [List.filter_cons, jsonIsNull]
        rw [hfil, List.any_cons, ih h1]
        simp [JSON.isStr]
    | bool b =>
      have hfil : List.filter (fun c => !jsonIsNull c) (JSON.bool b :: rest) =
          JSON.bool b :: List.filter (fun c => !jsonIsNull c) rest := by
        simp [List.filter_cons, jsonIsNull]
      rw [hfil, List.any_cons]
      simp [JSON.isStr]
    | num n =>
      have hfil : List.filter (fun c => !jsonIsNull c) (JSON.num n :: rest) =
          JSON.num n :: List.filter (fun c => !jsonIsNull c) rest := by
        simp [List.filter_cons, jsonIsNull]
      rw [hfil, List.any_cons]
      simp [JSON.isStr]
    | arr l =>
      have hfil : List.filter (fun c => !jsonIsNull c) (JSON.arr l :: rest) =
          JSON.arr l :: List.filter (fun c => !jsonIsNull c) rest := by
        simp [List.filter_cons, jsonIsNull]
      rw [hfil, List.any_cons]
      simp [JSON.isStr]
    | obj l =>
      have hfil : List.filter (fun c => !jsonIsNull c) (JSON.obj l :: rest) =
          JSON.obj l :: List.filter (fun c => !jsonIsNull c) rest := by
        simp [List.filter_cons, jsonIsNull]
      rw [hfil, List.any_cons]
      simp [JSON.isStr]

/-- C4: for a schema without `$ref` whose `enum` field is an array of entries.
(i) When every entry is a string or `null`: the `null` entries are removed,
an enum node is built over the de-duplicated ordered set of the remaining
strings in order, and the result is that enum node wrapped with a freshly
allocated null primitive in a two-member union exactly when a `null` entry was
present, else the bare enum node (the two members are the distinct handles
`st.nextId` and `st.nextId + 1`, so ordered-set construction keeps both).
(ii) When some remaining entry is not a string, the conversion fails hard with
the message naming the offending path via the Reference's string form. -/
theorem c4_enum_conversion (root : StringMap) (fuel : Nat) (st : ConvState)
    (schema : StringMap) (path : Ref) (entries : List JSON)
    (h1 : lookupField schema "$ref" = none)
    (h2 : lookupField schema "enum" = some (.arr entries)) :
    (entries.all (fun c => jsonIsNull c || c.isStr) = true →
       convertToType root (fuel + 1) st schema path =
         (let p1 := allocNode st (NodeDesc.enum (dedupOrdered (strCases entries)))
          if entries.any jsonIsNull then
            let p2 := allocNode p1.2 (NodeDesc.prim "null")
            let p3 := allocNode p2.2 (NodeDesc.union [p1.1, p2.1])
            Except.ok (p3.1, p3.2)
          else Except.ok (p1.1, p1.2)))
  ∧ (entries.all (fun c => jsonIsNull c || c.isStr) = false →
       convertToType root (fuel + 1) st schema path =
         .error (.fatal ("Non-string enum cases are not supported, at " ++ Ref.toString path))) := by
  have key : convertToType root (fuel + 1) st schema path =
      (let haveNull := entries.any jsonIsNull
       let cases2 := entries.filter (fun c => !jsonIsNull c)
       if cases2.any (fun c => !c.isStr) then
         Except.error (.fatal ("Non-string enum cases are not supported, at " ++ Ref.toString path))
       else do
         let strs ← checkStringArray (.arr cases2)
         let (tref, st1) := allocNode st (.enum (dedupOrdered strs))
         if haveNull then
           let (tnull, st2) := allocNode st1 (.prim "null")
           let (tu, st3) := allocNode st2 (.union (dedupOrdered [tref, tnull]))
           .ok (tu, st3)
         else
           .ok (tref, st1)) := by
    simp only [convertToType, eng, engStep]
    rw [h1]
    dsimp only
    rw [h2]
  constructor
  · intro hall
    rw [key]
    dsimp only
    rw [filter_no_nonstr entries hall]
    simp only [Bool.false_eq_true, if_false]
    rw [strCases_check entries hall]
    simp only [Bind.bind, Except.bind]
    by_cases hn : entries.any jsonIsNull = true
    · simp only [hn, if_true]
      rw [dedup_pair_ne (by simp [allocNode])]
    · simp [hn]
  · intro hsome
    rw [key]
    dsimp only
    rw [filter_any_nonstr entries hsome]
    simp only [if_true]

/-- Witness for C4 at the spec's two examples: `["a","b",null]` yields the
enum of `{a, b}` wrapped with a null primitive in a two-member union, and
`["a","b"]` yields the bare enum node. -/
theorem c4_enum_conversion_witness :
    convertToType [] 1 initState [("enum", .arr [.str "a", .str "b", .null])] (Ref.root "a") =
      .ok (2, ⟨[], 3,
        [(2, NodeDesc.union [0, 1]), (1, NodeDesc.prim "null"), (0, NodeDesc.enum ["a", "b"])],
        [], []⟩)
  ∧ convertToType [] 1 initState [("enum", .arr [.str "a", .str "b"])] (Ref.root "a") =
      .ok (0, ⟨[], 1, [(0, NodeDesc.enum ["a", "b"])], [], []⟩) := by
  constructor
  · have h := (c4_enum_conversion [] 0 initState
      [("enum", .arr [.str "a", .str "b", .null])] (Ref.root "a")
      [.str "a", .str "b", .null] rfl rfl).1 (by decide)
    rw [h]
    rfl
  · have h := (c4_enum_conversion [] 0 initState
      [("enum", .arr [.str "a", .str "b"])] (Ref.root "a")
      [.str "a", .str "b"] rfl rfl).1 (by decide)
    rw [h]
    rfl

/-! ## C3: fromTypeName's object case -/

/-- Exhausted-engine equations for the functions used below. -/
theorem engine_zero_eqs (root : StringMap) (st : ConvState) :
    (∀ (props : StringMap) (required : List String) (path : Ref),
       makeClassProps root 0 st props required path = .error .outOfFuel)
  ∧ (∀ (path : Ref) (props : StringMap) (required : List String),
       makeClass root 0 st path props required = .error .outOfFuel)
  ∧ (∀ (path : Ref) (additional : StringMap),
       makeMap root 0 st path additional = .error .outOfFuel) :=
  ⟨fun _ _ _ => rfl, fun _ _ _ => rfl, fun _ _ => rfl⟩

/-- Unfolding of the property loop at positive fuel. -/
theorem makeClassProps_succ_nil (root : StringMap) (fuel : Nat) (st : ConvState)
    (required : List String) (path : Ref) :
    makeClassProps root (fuel + 1) st [] required path = .ok ([], st) := rfl

/-- Unfolding of the property loop at positive fuel, cons case: check the
property schema is an object, convert it under the path extended by
`properties/<name>`, and mark it optional unless listed in `required`. -/
theorem makeClassProps_succ_cons (root : StringMap) (fuel : Nat) (st : ConvState)
    (n : String) (pj : JSON) (rest : StringMap) (required : List String) (path : Ref) :
    makeClassProps root (fuel + 1) st ((n, pj) :: rest) required path = (do
      let m ← checkStringMapJ pj
      let rt ← toType root fuel st m (path.push ["properties", n])
      let rs ← makeClassProps root fuel rt.2 rest required path
      Except.ok ((n, rt.1, !(required.contains n)) :: rs.1, rs.2)) := rfl

/-- Unfolding of `makeClass` at positive fuel. -/
theorem makeClass_succ (root : StringMap) (fuel : Nat) (st : ConvState)
    (path : Ref) (props : StringMap) (required : List String) :
    makeClass root (fuel + 1) st path props required = (do
      let rp ← makeClassProps root fuel st props required path
      Except.ok (allocNode rp.2 (NodeDesc.cls rp.1))) := rfl

/-- Unfolding of `makeMap` at positive fuel. -/
theorem makeMap_succ (root : StringMap) (fuel : Nat) (st : ConvState)
    (path : Ref) (additional : StringMap) :
    makeMap root (fuel + 1) st path additional = (do
      let rv ← toType root fuel st additional (path.push ["additionalProperties"])
      Except.ok (allocNode rv.2 (NodeDesc.mapOf rv.1))) := rfl

/-- The converted property pairs carry exactly the property names with the
complement of `required` membership as their optionality flags. -/
theorem makeClassProps_optionality (root : StringMap) :
    ∀ (props : StringMap) (fuel : Nat) (st : ConvState) (required : List String)
      (path : Ref) (pairs : List (String × TypeRef × Bool)) (st' : ConvState),
      makeClassProps root fuel st props required path = .ok (pairs, st') →
      pairs.map (fun p => (p.1, p.2.2)) =
        props.map (fun q => (q.1, !(required.contains q.1))) := by
  intro props
  induction props with
  | nil =>
    intro fuel st required path pairs st' h
    cases fuel with
    | zero => exact absurd h (by simp [makeClassProps, eng, engBot])
    | succ f =>
      rw [makeClassProps_succ_nil] at h
      have h2 := Except.ok.inj h
      have hp : pairs = [] := (congrArg Prod.fst h2).symm
      rw [hp]
      rfl
  | cons q rest ih =>
    intro fuel st required path pairs st' h
    obtain ⟨n, pj⟩ := q
    cases fuel with
    | zero => exact absurd h (by simp [makeClassProps, eng, engBot])
    | succ f =>
      rw [makeClassProps_succ_cons] at h
      obtain ⟨m, hm, h⟩ := exceptBind_ok h
      obtain ⟨rt, hrt, h⟩ := exceptBind_ok h
      obtain ⟨rs, hrs, h⟩ := exceptBind_ok h
      have h2 := Except.ok.inj h
      have hp : pairs = (n, rt.1, !(required.contains n)) :: rs.1 := (congrArg Prod.fst h2).symm
      rw [hp]
      simp only [List.map_cons]
      rw [ih f rt.2 required path rs.1 rs.2 (by rw [hrs])]

/-- A successful `makeClass` allocates a class node (the newest allocation of
its final state) whose property pairs carry the complement-of-`required`
optionality flags. -/
theorem makeClass_chars (root : StringMap) (fuel : Nat) (st : ConvState) (path : Ref)
    (props : StringMap) (required : List String) (c : TypeRef) (st' : ConvState)
    (h : makeClass root fuel st path props required = .ok (c, st')) :
    ∃ pairs, st'.nodes.head? = some (c, NodeDesc.cls pairs) ∧
      pairs.map (fun p => (p.1, p.2.2)) =
        props.map (fun q => (q.1, !(required.contains q.1))) := by
  cases fuel with
  | zero => exact absurd h (by simp [makeClass, eng, engBot])
  | succ f =>
    rw [makeClass_succ] at h
    obtain ⟨rp, hrp, h⟩ := exceptBind_ok h
    have h2 := Except.ok.inj h
    have hc := congrArg Prod.fst h2
    have hs := congrArg Prod.snd h2
    simp only [allocNode] at hc hs
    refine ⟨rp.1, ?_, makeClassProps_optionality root props f st required path rp.1 rp.2
      (by rw [hrp])⟩
    rw [← hs, ← hc]
    simp

/-- Unfolding of `fromTypeName`'s object case at positive fuel. -/
theorem fromTypeName_object_succ (root : StringMap) (fuel : Nat) (st : ConvState)
    (schema : StringMap) (path : Ref) :
    fromTypeName root (fuel + 1) st schema path "object" = (do
      let required ← requiredOf schema
      let st2 ← setTypeForPath (allocNode st NodeDesc.uniqueUnion).2 path
        (allocNode st NodeDesc.uniqueUnion).1
      let r3 ←
        (match lookupField schema "properties" with
         | none => Except.ok (([] : List TypeRef), st2)
         | some propsJ => do
             let props ← checkStringMapJ propsJ
             let rc ← makeClass root fuel st2 path props required
             Except.ok ([rc.1], rc.2))
      let r4 ←
        (match lookupField schema "additionalProperties" with
         | none => Except.ok (([] : List TypeRef), r3.2)
         | some (JSON.bool false) =>
             (match lookupField schema "properties" with
              | none => do
                  let rc ← makeClass root fuel r3.2 path [] required
                  Except.ok ([rc.1], rc.2)
              | some _ => Except.ok ([], r3.2))
         | some addl =>
             if jsTypeofObject addl then do
               let m ← checkStringMapJ addl
               let rm ← makeMap root fuel r3.2 path m
               Except.ok ([rm.1], rm.2)
             else Except.ok ([], r3.2))
      let types := r3.1 ++ r4.1
      let p5 :=
        if types.isEmpty then
          ([(allocNode (allocNode r4.2 (NodeDesc.prim "any")).2
              (NodeDesc.mapOf (allocNode r4.2 (NodeDesc.prim "any")).1)).1],
           (allocNode (allocNode r4.2 (NodeDesc.prim "any")).2
              (NodeDesc.mapOf (allocNode r4.2 (NodeDesc.prim "any")).1)).2)
        else (types, r4.2)
      Except.ok ((allocNode st NodeDesc.uniqueUnion).1,
        setSetOperationMembers p5.2 (allocNode st NodeDesc.uniqueUnion).1
          (dedupOrdered p5.1))) := rfl

/-- De-duplicating a singleton is the identity. -/
theorem dedup_single {α : Type} [DecidableEq α] (a : α) : dedupOrdered [a] = [a] := by
  simp [dedupOrdered, dedupAux]

/-- Inversion of a successful `makeMap`: the fuel is positive, the value type
comes from converting the sub-schema under `additionalProperties`, and the
result is a freshly allocated map node over it. -/
theorem makeMap_inv (root : StringMap) (fuel : Nat) (st : ConvState) (path : Ref)
    (additional : StringMap) (rm : TypeRef × ConvState)
    (h : makeMap root fuel st path additional = .ok rm) :
    ∃ f rv, fuel = f + 1 ∧
      toType root f st additional (path.push ["additionalProperties"]) = .ok rv ∧
      allocNode rv.2 (NodeDesc.mapOf rv.1) = rm := by
  cases fuel with
  | zero => exact absurd h (by simp [makeMap, eng, engBot])
  | succ f =>
    rw [makeMap_succ] at h
    obtain ⟨rv, hv, h⟩ := exceptBind_ok h
    exact ⟨f, rv, rfl, (by rw [hv]), Except.ok.inj h⟩


/-- C3: the behaviour of `fromTypeName` under type name `"object"`, one
conjunct per schema shape.  (i) An absent `required` field defaults to the
empty array.  (ii) When `properties` is present, the union's member set
(filled by the final `setSetOperationMembers` call, the newest entry of the
log) contains a class node built by `makeClass` from those properties, and the
class's per-property optionality flag is exactly the complement of membership
in the `required` array.  (iii) When `additionalProperties` is an object (in
the JS `typeof` sense; only a keyed mapping survives the string-map check),
the member set contains a map node whose value type is the conversion of that
sub-schema under the path extended by `additionalProperties`.  (iv) When
`additionalProperties` is `false`, the member set is exactly one class: the
empty class when `properties` is absent, and just the properties class — no
empty class — when `properties` is present.  (v) When neither `properties`
nor a contributing `additionalProperties` is present, the result is a map of
`any`. -/
theorem c3_object_members :
    (∀ schema : StringMap,
       lookupField schema "required" = none → requiredOf schema = .ok [])
  ∧ (∀ (root : StringMap) (fuel : Nat) (st : ConvState) (schema : StringMap) (path : Ref)
       (t : TypeRef) (st' : ConvState) (propsJ : JSON),
       lookupField schema "properties" = some propsJ →
       fromTypeName root (fuel + 1) st schema path "object" = .ok (t, st') →
       ∃ props required ms cref pairs stA stB,
         checkStringMapJ propsJ = .ok props ∧
         requiredOf schema = .ok required ∧
         makeClass root fuel stA path props required = .ok (cref, stB) ∧
         stB.nodes.head? = some (cref, NodeDesc.cls pairs) ∧
         pairs.map (fun p => (p.1, p.2.2)) =
           props.map (fun q => (q.1, !(required.contains q.1))) ∧
         st'.setOps.head? = some (t, ms) ∧
         cref ∈ ms)
  ∧ (∀ (root : StringMap) (fuel : Nat) (st : ConvState) (schema : StringMap) (path : Ref)
       (t : TypeRef) (st' : ConvState) (addl : JSON),
       lookupField schema "additionalProperties" = some addl →
       jsTypeofObject addl = true →
       fromTypeName root (fuel + 1) st schema path "object" = .ok (t, st') →
       ∃ m ms mref vref f stA stV,
         checkStringMapJ addl = .ok m ∧
         fuel = f + 1 ∧
         toType root f stA m (path.push ["additionalProperties"]) = .ok (vref, stV) ∧
         st'.setOps.head? = some (t, ms) ∧
         mref ∈ ms ∧
         st'.nodes.head? = some (mref, NodeDesc.mapOf vref))
  ∧ (∀ (root : StringMap) (fuel : Nat) (st : ConvState) (schema : StringMap) (path : Ref)
       (t : TypeRef) (st' : ConvState),
       lookupField schema "additionalProperties" = some (JSON.bool false) →
       fromTypeName root (fuel + 1) st schema path "object" = .ok (t, st') →
       ((lookupField schema "properties" = none →
          ∃ cref, st'.setOps.head? = some (t, [cref]) ∧
            st'.nodes.head? = some (cref, NodeDesc.cls []))
        ∧ (∀ propsJ, lookupField schema "properties" = some propsJ →
            ∃ props required cref pairs,
              checkStringMapJ propsJ = .ok props ∧
              requiredOf schema = .ok required ∧
              st'.setOps.head? = some (t, [cref]) ∧
              st'.nodes.head? = some (cref, NodeDesc.cls pairs) ∧
              pairs.map (fun p => (p.1, p.2.2)) =
                props.map (fun q => (q.1, !(required.contains q.1))))))
  ∧ (∀ (root : StringMap) (fuel : Nat) (st : ConvState) (schema : StringMap) (path : Ref)
       (t : TypeRef) (st' : ConvState),
       lookupField schema "properties" = none →
       (lookupField schema "additionalProperties" = none ∨
         ∃ a, lookupField schema "additionalProperties" = some a ∧ a ≠ JSON.bool false ∧
           jsTypeofObject a = false) →
       fromTypeName root (fuel + 1) st schema path "object" = .ok (t, st') →
       ∃ mref aref,
         st'.setOps.head? = some (t, [mref]) ∧
         st'.nodes.head? = some (mref, NodeDesc.mapOf aref) ∧
         lookupAssoc st'.nodes aref = some (NodeDesc.prim "any")) := by
  refine ⟨?_, ?_, ?_, ?_, ?_⟩
  · intro schema h
    simp [requiredOf, h]
  · -- properties contribute a class with complement-of-required optionality
    intro root fuel st schema path t st' propsJ hp hsucc
    rw [fromTypeName_object_succ] at hsucc
    obtain ⟨required, hreq, hsucc⟩ := exceptBind_ok hsucc
    obtain ⟨st2, hset, hsucc⟩ := exceptBind_ok hsucc
    rw [hp] at hsucc
    obtain ⟨r3, hr3, hsucc⟩ := exceptBind_ok hsucc
    dsimp only at hr3
    obtain ⟨props, hpm, hr3⟩ := exceptBind_ok hr3
    obtain ⟨rc, hmc, hr3⟩ := exceptBind_ok hr3
    have hr3e : ([rc.1], rc.2) = r3 := Except.ok.inj hr3
    subst hr3e
    obtain ⟨r4, hr4, hsucc⟩ := exceptBind_ok hsucc
    dsimp only at hsucc
    simp only [List.cons_append, List.nil_append, List.isEmpty_cons, Bool.false_eq_true,
      if_false] at hsucc
    have h2 := Except.ok.inj hsucc
    have ht := congrArg Prod.fst h2
    have hst := congrArg Prod.snd h2
    dsimp only at ht hst
    obtain ⟨pairs, hhead, hopt⟩ :=
      makeClass_chars root fuel st2 path props required rc.1 rc.2 (by rw [hmc])
    refine ⟨props, required, dedupOrdered (rc.1 :: r4.1), rc.1, pairs, st2, rc.2,
      hpm, hreq, (by rw [hmc]), hhead, hopt, ?_, mem_dedupOrdered (List.mem_cons_self _ _)⟩
    rw [← hst]
    simp only [setSetOperationMembers]
    rw [ht]
    rfl
  · -- an object-valued additionalProperties contributes a map node
    intro root fuel st schema path t st' addl haddl htyp hsucc
    cases addl with
    | bool b => simp [jsTypeofObject] at htyp
    | num n => simp [jsTypeofObject] at htyp
    | str s => simp [jsTypeofObject] at htyp
    | null =>
      rw [fromTypeName_object_succ] at hsucc
      obtain ⟨required, hreq, hsucc⟩ := exceptBind_ok hsucc
      obtain ⟨st2, hset, hsucc⟩ := exceptBind_ok hsucc
      obtain ⟨r3, hr3, hsucc⟩ := exceptBind_ok hsucc
      rw [haddl] at hsucc
      obtain ⟨r4, hr4, hsucc⟩ := exceptBind_ok hsucc
      dsimp only at hr4
      simp only [jsTypeofObject, if_true] at hr4
      obtain ⟨m, hm, hr4⟩ := exceptBind_ok hr4
      exact absurd hm (by simp [checkStringMapJ])
    | arr l =>
      rw [fromTypeName_object_succ] at hsucc
      obtain ⟨required, hreq, hsucc⟩ := exceptBind_ok hsucc
      obtain ⟨st2, hset, hsucc⟩ := exceptBind_ok hsucc
      obtain ⟨r3, hr3, hsucc⟩ := exceptBind_ok hsucc
      rw [haddl] at hsucc
      obtain ⟨r4, hr4, hsucc⟩ := exceptBind_ok hsucc
      dsimp only at hr4
      simp only [jsTypeofObject, if_true] at hr4
      obtain ⟨m, hm, hr4⟩ := exceptBind_ok hr4
      exact absurd hm (by simp [checkStringMapJ])
    | obj fields =>
      rw [fromTypeName_object_succ] at hsucc
      obtain ⟨required, hreq, hsucc⟩ := exceptBind_ok hsucc
      obtain ⟨st2, hset, hsucc⟩ := exceptBind_ok hsucc
      obtain ⟨r3, hr3, hsucc⟩ := exceptBind_ok hsucc
      rw [haddl] at hsucc
      obtain ⟨r4, hr4, hsucc⟩ := exceptBind_ok hsucc
      dsimp only at hr4
      simp only [jsTypeofObject, if_true] at hr4
      obtain ⟨m, hm, hr4⟩ := exceptBind_ok hr4
      obtain ⟨rm, hmm, hr4⟩ := exceptBind_ok hr4
      have hr4e : ([rm.1], rm.2) = r4 := Except.ok.inj hr4
      subst hr4e
      obtain ⟨f, rv, hf, hv, hrm⟩ := makeMap_inv root fuel r3.2 path m rm hmm
      have hrm1 := congrArg Prod.fst hrm
      have hrm2 := congrArg Prod.snd hrm
      simp only [allocNode] at hrm1 hrm2
      have hne : (r3.1 ++ [rm.1]).isEmpty = false := by
        cases r3.1 <;> simp
      dsimp only at hsucc
      simp only [hne, Bool.false_eq_true, if_false] at hsucc
      have h2 := Except.ok.inj hsucc
      have ht := congrArg Prod.fst h2
      have hst := congrArg Prod.snd h2
      dsimp only at ht hst
      refine ⟨m, dedupOrdered (r3.1 ++ [rm.1]), rm.1, rv.1, f, r3.2, rv.2,
        hm, hf, hv, ?_, mem_dedupOrdered (List.mem_append_right _ (List.mem_cons_self _ _)), ?_⟩
      · rw [← hst]
        simp only [setSetOperationMembers]
        rw [ht]
        rfl
      · rw [← hst]
        simp only [setSetOperationMembers]
        rw [← hrm2, ← hrm1]
        rfl
  · -- additionalProperties false: exactly one class member
    intro root fuel st schema path t st' haddl hsucc
    constructor
    · intro hnone
      rw [fromTypeName_object_succ] at hsucc
      obtain ⟨required, hreq, hsucc⟩ := exceptBind_ok hsucc
      obtain ⟨st2, hset, hsucc⟩ := exceptBind_ok hsucc
      rw [hnone, haddl] at hsucc
      obtain ⟨r3, hr3, hsucc⟩ := exceptBind_ok hsucc
      dsimp only at hr3
      have hr3e : (([] : List TypeRef), st2) = r3 := Except.ok.inj hr3
      subst hr3e
      obtain ⟨r4, hr4, hsucc⟩ := exceptBind_ok hsucc
      dsimp only at hr4
      obtain ⟨rc, hmc, hr4⟩ := exceptBind_ok hr4
      have hr4e : ([rc.1], rc.2) = r4 := Except.ok.inj hr4
      subst hr4e
      dsimp only at hsucc
      simp only [List.nil_append, List.isEmpty_cons, Bool.false_eq_true, if_false] at hsucc
      have h2 := Except.ok.inj hsucc
      have ht := congrArg Prod.fst h2
      have hst := congrArg Prod.snd h2
      dsimp only at ht hst
      obtain ⟨pairs, hhead, hopt⟩ :=
        makeClass_chars root fuel st2 path [] required rc.1 rc.2 (by rw [hmc])
      have hpairs : pairs = [] := by
        have := hopt
        simp only [List.map_nil] at this
        exact List.map_eq_nil_iff.mp this
      subst hpairs
      refine ⟨rc.1, ?_, ?_⟩
      · rw [← hst]
        simp only [setSetOperationMembers]
        rw [ht, dedup_single]
        rfl
      · rw [← hst]
        simp only [setSetOperationMembers]
        exact hhead
    · intro propsJ hp
      rw [fromTypeName_object_succ] at hsucc
      obtain ⟨required, hreq, hsucc⟩ := exceptBind_ok hsucc
      obtain ⟨st2, hset, hsucc⟩ := exceptBind_ok hsucc
      rw [hp, haddl] at hsucc
      obtain ⟨r3, hr3, hsucc⟩ := exceptBind_ok hsucc
      dsimp only at hr3
      obtain ⟨props, hpm, hr3⟩ := exceptBind_ok hr3
      obtain ⟨rc, hmc, hr3⟩ := exceptBind_ok hr3
      have hr3e : ([rc.1], rc.2) = r3 := Except.ok.inj hr3
      subst hr3e
      obtain ⟨r4, hr4, hsucc⟩ := exceptBind_ok hsucc
      dsimp only at hr4
      have hr4e : (([] : List TypeRef), rc.2) = r4 := Except.ok.inj hr4
      subst hr4e
      dsimp only at hsucc
      simp only [List.cons_append, List.nil_append, List.append_nil, List.isEmpty_cons,
        Bool.false_eq_true, if_false] at hsucc
      have h2 := Except.ok.inj hsucc
      have ht := congrArg Prod.fst h2
      have hst := congrArg Prod.snd h2
      dsimp only at ht hst
      obtain ⟨pairs, hhead, hopt⟩ :=
        makeClass_chars root fuel st2 path props required rc.1 rc.2 (by rw [hmc])
      refine ⟨props, required, rc.1, pairs, hpm, hreq, ?_, ?_, hopt⟩
      · rw [← hst]
        simp only [setSetOperationMembers]
        rw [ht, dedup_single]
        rfl
      · rw [← hst]
        simp only [setSetOperationMembers]
        exact hhead
  · -- no contribution: map of any
    intro root fuel st schema path t st' hnone haddl hsucc
    rw [fromTypeName_object_succ] at hsucc
    obtain ⟨required, hreq, hsucc⟩ := exceptBind_ok hsucc
    obtain ⟨st2, hset, hsucc⟩ := exceptBind_ok hsucc
    rw [hnone] at hsucc
    obtain ⟨r3, hr3, hsucc⟩ := exceptBind_ok hsucc
    dsimp only at hr3
    have hr3e : (([] : List TypeRef), st2) = r3 := Except.ok.inj hr3
    subst hr3e
    rcases haddl with hao | ⟨a, ha, hnb, htyp⟩
    · rw [hao] at hsucc
      obtain ⟨r4, hr4, hsucc⟩ := exceptBind_ok hsucc
      dsimp only at hr4
      have hr4e : (([] : List TypeRef), st2) = r4 := Except.ok.inj hr4
      subst hr4e
      dsimp only at hsucc
      simp only [List.nil_append, List.isEmpty_nil, if_true, allocNode] at hsucc
      have h2 := Except.ok.inj hsucc
      have ht := congrArg Prod.fst h2
      have hst := congrArg Prod.snd h2
      dsimp only at ht hst
      refine ⟨st2.nextId + 1, st2.nextId, ?_, ?_, ?_⟩
      · rw [← hst]
        simp only [setSetOperationMembers]
        rw [ht, dedup_single]
        rfl
      · rw [← hst]
        rfl
      · rw [← hst]
        have hne2 : ¬ (st2.nextId + 1 = st2.nextId) := by omega
        simp [setSetOperationMembers, lookupAssoc, hne2]
    · rw [ha] at hsucc
      obtain ⟨r4, hr4, hsucc⟩ := exceptBind_ok hsucc
      have hr4e : (([] : List TypeRef), st2) = r4 := by
        cases a with
        | null => simp [jsTypeofObject] at htyp
        | arr l => simp [jsTypeofObject] at htyp
        | obj l => simp [jsTypeofObject] at htyp
        | bool b =>
          cases b with
          | false => exact absurd rfl hnb
          | true =>
            dsimp only at hr4
            simp only [jsTypeofObject, Bool.false_eq_true, if_false] at hr4
            exact Except.ok.inj hr4
        | num n =>
          dsimp only at hr4
          simp only [jsTypeofObject, Bool.false_eq_true, if_false] at hr4
          exact Except.ok.inj hr4
        | str s =>
          dsimp only at hr4
          simp only [jsTypeofObject, Bool.false_eq_true, if_false] at hr4
          exact Except.ok.inj hr4
      subst hr4e
      dsimp only at hsucc
      simp only [List.nil_append, List.isEmpty_nil, if_true, allocNode] at hsucc
      have h2 := Except.ok.inj hsucc
      have ht := congrArg Prod.fst h2
      have hst := congrArg Prod.snd h2
      dsimp only at ht hst
      refine ⟨st2.nextId + 1, st2.nextId, ?_, ?_, ?_⟩
      · rw [← hst]
        simp only [setSetOperationMembers]
        rw [ht, dedup_single]
        rfl
      · rw [← hst]
        rfl
      · rw [← hst]
        have hne2 : ¬ (st2.nextId + 1 = st2.nextId) := by omega
        simp [setSetOperationMembers, lookupAssoc, hne2]

/-- The spec's object example:
`{"type":"object","properties":{"a":{"type":"string"}},"required":["a"]}`. -/
def schemaC3 : StringMap :=
  [("type", .str "object"),
   ("properties", .obj [("a", .obj [("type", .str "string")])]),
   ("required", .arr [.str "a"])]

/-- The final state of converting `schemaC3`'s object case. -/
def stC3 : ConvState :=
  ⟨[([PathElement.root, PathElement.keyOrIndex "properties", PathElement.keyOrIndex "a"], 1),
    ([PathElement.root], 0)],
   4,
   [(3, NodeDesc.cls [("a", 1, false)]),
    (2, NodeDesc.prim "string"),
    (1, NodeDesc.uniqueIntersection),
    (0, NodeDesc.uniqueUnion)],
   [(0, [3]), (1, [2])],
   []⟩

/-- Witness for C3 at the spec's example: its class member has the single
property `a`, marked non-optional because `a` is listed in `required`. -/
theorem c3_object_members_witness :
    ∃ props required ms cref pairs stA stB,
      checkStringMapJ (.obj [("a", .obj [("type", .str "string")])]) = .ok props ∧
      requiredOf schemaC3 = .ok required ∧
      makeClass [] 9 stA (Ref.root "a") props required = .ok (cref, stB) ∧
      stB.nodes.head? = some (cref, NodeDesc.cls pairs) ∧
      pairs.map (fun p => (p.1, p.2.2)) =
        props.map (fun q => (q.1, !(required.contains q.1))) ∧
      stC3.setOps.head? = some (0, ms) ∧
      cref ∈ ms :=
  c3_object_members.2.1 [] 9 initState schemaC3 (Ref.root "a") 0 stC3
    (.obj [("a", .obj [("type", .str "string")])]) rfl rfl
